import Mathlib

/-!
# SNI dynamic forward proxy network filter

A shallow embedding of `source/extensions/filters/network/sni_dynamic_forward_proxy/proxy_filter.cc`.

The filter object owns two scoped members, `circuit_breaker_` (a lease on the DNS cache's
pending-request limiter) and `cache_load_handle_` (the registration of an in-flight cache load).
Every call of a filter method is modelled as a pure function from the filter state and the
answers of its collaborators to the new filter state, the list of observable actions the call
performed (in program order) and the way the call ended.
-/

set_option linter.dupNamespace false

namespace Envoy.SniDynamicForwardProxy

/-! ## Data model -/

/-- Return code of a network filter callback (`Network::FilterStatus`). -/
inductive FilterStatus where
  | Continue
  | StopIteration
  deriving DecidableEq, Repr

/-- How a connection is closed (`Network::ConnectionCloseType`); the filter only ever uses
`NoFlush`, the abrupt close that drops buffered output. -/
inductive ConnectionCloseType where
  | FlushWrite
  | NoFlush
  deriving DecidableEq, Repr

/-- Value of `enum class LoadDnsCacheEntryStatus`, kept as the underlying integer so that a value
outside the three enumerators can be represented, as the `switch` in `onNewConnection` has to
cope with it. -/
structure LoadDnsCacheEntryStatus where
  raw : Nat
  deriving DecidableEq, Repr

namespace LoadDnsCacheEntryStatus

/-- The entry is already resolved. -/
def InCache : LoadDnsCacheEntryStatus := ⟨0⟩
/-- The entry is being resolved; the callback fires on completion. -/
def Loading : LoadDnsCacheEntryStatus := ⟨1⟩
/-- The cache cannot track another host. -/
def Overflow : LoadDnsCacheEntryStatus := ⟨2⟩

end LoadDnsCacheEntryStatus

/-- Identity of one lease handed out by the limiter (`Upstream::ResourceAutoIncDec`). -/
abbrev Token := Nat

/-- Identity of one load registration (`DnsCache::LoadDnsCacheEntryHandle`). -/
abbrev Handle := Nat

/-- Resolved host information passed to the completion callback. -/
structure DnsHostInfo where
  address : String
  deriving DecidableEq, Repr

/-- The shared pointer handed to `onLoadDnsCacheComplete`; it may be null. -/
abbrev DnsHostInfoSharedPtr := Option DnsHostInfo

/-- Value returned by `DnsCache::loadDnsCacheEntry`. -/
structure LoadDnsCacheEntryResult where
  status_ : LoadDnsCacheEntryStatus
  handle_ : Option Handle
  deriving DecidableEq, Repr

/-- Answers of the DNS cache to the two calls the filter makes on it during one
`onNewConnection`. -/
structure DnsCache where
  canCreateDnsRequest : Option Token
  loadDnsCacheEntry : String → Nat → LoadDnsCacheEntryResult

/-- What the filter reads from the downstream connection. -/
structure Connection where
  requestedServerName : String
  localPort : Nat

/-- Observable actions of the filter on its collaborators. -/
inductive Event where
  /-- The call `cache().canCreateDnsRequest()` was made and gave this answer. -/
  | canCreateDnsRequest (granted : Option Token)
  /-- A lease was destroyed, giving its slot back to the limiter. -/
  | tokenReleased (t : Token)
  /-- The call `cache().loadDnsCacheEntry(host, priority, *this)` was made. -/
  | loadDnsCacheEntry (host : String) (priority : Nat)
  /-- A load handle was destroyed, which cancels the registered callback. -/
  | handleCancelled (h : Handle)
  /-- The call `connection().close(type)` was made. -/
  | close (type : ConnectionCloseType)
  /-- The call `read_callbacks_->continueReading()` was made. -/
  | continueReading
  deriving DecidableEq, Repr

/-- How a call ended. -/
inductive Outcome (α : Type) where
  | returned (value : α)
  | assertFailure
  | notReached
  deriving DecidableEq, Repr

/-- The mutable members of `ProxyFilter`. -/
structure ProxyFilter where
  circuit_breaker_ : Option Token
  cache_load_handle_ : Option Handle
  deriving DecidableEq, Repr

/-- Result of running one filter method. -/
structure Call (α : Type) where
  filter : ProxyFilter
  events : List Event
  outcome : Outcome α

/-! ## Operations -/

/-- Destroying the lease owned by a `ResourceAutoIncDecPtr`, if there is one. -/
def dropToken : Option Token → List Event
  | none => []
  | some t => [Event.tokenReleased t]

/-- Destroying the registration owned by a `LoadDnsCacheEntryHandlePtr`, if there is one. -/
def dropHandle : Option Handle → List Event
  | none => []
  | some h => [Event.handleCancelled h]

/-- The constructor `ProxyFilter::ProxyFilter`: both owning pointers start out null. -/
def ProxyFilter.ProxyFilter : ProxyFilter :=
  { circuit_breaker_ := none, cache_load_handle_ := none }

/-- The cache key `absl::StrCat(sni, ":", port)`. -/
def host (sni : String) (port : Nat) : String :=
  sni ++ ":" ++ toString port

/-- The method `ProxyFilter::onNewConnection`. `asserts` tells whether `ASSERT` is compiled in
(it aborts on a false condition) or compiled out (it does nothing). -/
def onNewConnection (asserts : Bool) (cache : DnsCache) (conn : Connection)
    (self : ProxyFilter) : Call FilterStatus :=
  let sni := conn.requestedServerName
  if sni.isEmpty then
    { filter := self, events := [], outcome := .returned .Continue }
  else
    -- circuit_breaker_ = config_->cache().canCreateDnsRequest();
    let granted := cache.canCreateDnsRequest
    let ev1 := Event.canCreateDnsRequest granted :: dropToken self.circuit_breaker_
    let self1 := { self with circuit_breaker_ := granted }
    if self1.circuit_breaker_.isNone then
      { filter := self1
        events := ev1 ++ [Event.close .NoFlush]
        outcome := .returned .StopIteration }
    else
      let h := host sni conn.localPort
      let result := cache.loadDnsCacheEntry h 0
      -- cache_load_handle_ = std::move(result.handle_);
      let ev2 := ev1 ++ Event.loadDnsCacheEntry h 0 :: dropHandle self1.cache_load_handle_
      let self2 := { self1 with cache_load_handle_ := result.handle_ }
      -- if (cache_load_handle_ == nullptr) circuit_breaker_.reset();
      let ev3 := if self2.cache_load_handle_.isNone then ev2 ++ dropToken self2.circuit_breaker_
        else ev2
      let self3 := if self2.cache_load_handle_.isNone then { self2 with circuit_breaker_ := none }
        else self2
      if result.status_ = .InCache then
        if asserts && !self3.cache_load_handle_.isNone then
          { filter := self3, events := ev3, outcome := .assertFailure }
        else
          { filter := self3, events := ev3, outcome := .returned .Continue }
      else if result.status_ = .Loading then
        if asserts && self3.cache_load_handle_.isNone then
          { filter := self3, events := ev3, outcome := .assertFailure }
        else
          { filter := self3, events := ev3, outcome := .returned .StopIteration }
      else if result.status_ = .Overflow then
        if asserts && !self3.cache_load_handle_.isNone then
          { filter := self3, events := ev3, outcome := .assertFailure }
        else
          { filter := self3
            events := ev3 ++ [Event.close .NoFlush]
            outcome := .returned .StopIteration }
      else
        { filter := self3, events := ev3, outcome := .notReached }

/-- The method `ProxyFilter::onLoadDnsCacheComplete`; the host information is not looked at. -/
def onLoadDnsCacheComplete (asserts : Bool) (_info : DnsHostInfoSharedPtr)
    (self : ProxyFilter) : Call Unit :=
  if asserts && self.circuit_breaker_.isNone then
    { filter := self, events := [], outcome := .assertFailure }
  else
    { filter := { self with circuit_breaker_ := none }
      events := dropToken self.circuit_breaker_ ++ [Event.continueReading]
      outcome := .returned () }

/-! ## Reading the action list -/

/-- Leases granted by the limiter during the actions. -/
def acquiredTokens : List Event → List Token
  | [] => []
  | Event.canCreateDnsRequest (some t) :: es => t :: acquiredTokens es
  | _ :: es => acquiredTokens es

/-- Leases given back during the actions. -/
def releasedTokens : List Event → List Token
  | [] => []
  | Event.tokenReleased t :: es => t :: releasedTokens es
  | _ :: es => releasedTokens es

/-- Load requests submitted to the cache during the actions, as (key, priority). -/
def loadCalls : List Event → List (String × Nat)
  | [] => []
  | Event.loadDnsCacheEntry h p :: es => (h, p) :: loadCalls es
  | _ :: es => loadCalls es

/-- Close types with which the connection was closed during the actions. -/
def closes : List Event → List ConnectionCloseType
  | [] => []
  | Event.close ty :: es => ty :: closes es
  | _ :: es => closes es

/-- Number of `continueReading` calls during the actions. -/
def continueReadingCalls : List Event → Nat
  | [] => 0
  | Event.continueReading :: es => continueReadingCalls es + 1
  | _ :: es => continueReadingCalls es

/-- Handles whose registration was cancelled during the actions. -/
def cancelledHandles : List Event → List Handle
  | [] => []
  | Event.handleCancelled h :: es => h :: cancelledHandles es
  | _ :: es => cancelledHandles es

/-! ## The decimal digits of the port -/

/-- Number read back from a list of decimal digit characters, most significant first. -/
def decimalValue (cs : List Char) : Nat :=
  cs.foldl (fun acc c => acc * 10 + (c.toNat - 48)) 0

/-! ## Several filters sharing one cache -/

/-- Modelled from the spec: the destructor of `ProxyFilter`, which the source leaves to the
compiler (the member declarations are in the header). On destruction the handle registration
is cancelled and any held lease is released, as part of normal scoped cleanup. -/
def destroyFilter (self : ProxyFilter) : Call Unit :=
  { filter := { circuit_breaker_ := none, cache_load_handle_ := none }
    events := dropHandle self.cache_load_handle_ ++ dropToken self.circuit_breaker_
    outcome := .returned () }

/-- Whether a call ended by aborting the process. -/
def Outcome.isAbort {α : Type} : Outcome α → Bool
  | .returned _ => false
  | .assertFailure => true
  | .notReached => true

/-- Stage of the life of one filter object. -/
inductive Stage where
  | constructed
  | connected
  | destroyed
  deriving DecidableEq, Repr

/-- One filter object together with the stage of its life. -/
structure Gate where
  stage : Stage
  filter : ProxyFilter
  deriving DecidableEq, Repr

/-- Modelled from the spec: an instrumented fake cache shared by all filters, with the filters
themselves. It counts the leases it handed out (`issued`, also the identity of the next lease),
logs the leases given back (`released`), numbers the load registrations it created (`handles`),
remembers which filter registered each handle (`registered`), which registrations were cancelled
and which callbacks it has fired (`completed`). `aborted` records that an assertion failed or a
not-reached point was hit, after which the process is dead. -/
structure World where
  gates : List Gate
  issued : Nat
  released : List Token
  handles : Nat
  registered : List (Handle × Nat)
  cancelled : List Handle
  completed : List Handle
  aborted : Bool
  deriving DecidableEq, Repr

/-- The initial state: `n` freshly constructed filters and an untouched cache. -/
def World.init (n : Nat) : World :=
  { gates := List.replicate n { stage := .constructed, filter := ProxyFilter.ProxyFilter }
    issued := 0, released := [], handles := 0, registered := [], cancelled := []
    completed := [], aborted := false }

/-- What can happen next: filter `i` gets its connection (with the answers the cache will give:
whether a lease is available, the status of the load and whether a handle comes with it), the
cache fires the callback of handle `h`, or filter `i` is destroyed. -/
inductive Action where
  | newConnection (i : Nat) (conn : Connection) (available : Bool)
      (status : LoadDnsCacheEntryStatus) (withHandle : Bool)
  | loadComplete (h : Handle) (info : DnsHostInfoSharedPtr)
  | destroy (i : Nat)

/-- Answers of the fake cache for one `onNewConnection`: the next lease if one is available, and
the given status with the next handle if one is to be returned. -/
def World.cache (w : World) (available : Bool) (status : LoadDnsCacheEntryStatus)
    (withHandle : Bool) : DnsCache :=
  { canCreateDnsRequest := if available then some w.issued else none
    loadDnsCacheEntry := fun _ _ =>
      { status_ := status, handle_ := if withHandle then some w.handles else none } }

/-- The bookkeeping of the fake cache for the actions of one call. -/
def World.record (w : World) (es : List Event) : World :=
  { w with
    issued := w.issued + (acquiredTokens es).length
    released := w.released ++ releasedTokens es
    cancelled := w.cancelled ++ cancelledHandles es }

/-- One step of the system. A dead process does nothing, a filter that does not exist or is
destroyed is not called, and the cache fires a callback only for a handle it has registered,
that was not cancelled and whose callback was not fired before. -/
def step (asserts : Bool) (w : World) : Action → World
  | .newConnection i conn available status withHandle =>
    if w.aborted then w else
    match w.gates[i]? with
    | none => w
    | some g =>
      if g.stage = .destroyed then w else
      let c := onNewConnection asserts (w.cache available status withHandle) conn g.filter
      let made := withHandle && !(loadCalls c.events).isEmpty
      { w.record c.events with
        gates := w.gates.set i { stage := .connected, filter := c.filter }
        handles := if made then w.handles + 1 else w.handles
        registered := if made then (w.handles, i) :: w.registered else w.registered
        aborted := c.outcome.isAbort }
  | .loadComplete h info =>
    if w.aborted then w else
    match w.registered.lookup h with
    | none => w
    | some i =>
      if h ∈ w.cancelled ∨ h ∈ w.completed then w else
      match w.gates[i]? with
      | none => w
      | some g =>
        let c := onLoadDnsCacheComplete asserts info g.filter
        { w.record c.events with
          gates := w.gates.set i { stage := g.stage, filter := c.filter }
          completed := h :: w.completed
          aborted := c.outcome.isAbort }
  | .destroy i =>
    if w.aborted then w else
    match w.gates[i]? with
    | none => w
    | some g =>
      if g.stage = .destroyed then w else
      let c := destroyFilter g.filter
      { w.record c.events with
        gates := w.gates.set i { stage := .destroyed, filter := c.filter }
        aborted := c.outcome.isAbort }

/-- Running a schedule of actions. -/
def run (asserts : Bool) (w : World) (schedule : List Action) : World :=
  schedule.foldl (step asserts) w

/-- Whether an action respects the life cycle of the filters and the contract of the cache:
`onNewConnection` is called on a filter that was constructed and not yet connected, with a load
answer whose status is one of the three enumerators and that carries a handle exactly when the
status is `Loading`; a callback is fired only for a registered handle that is neither cancelled
nor already completed; only a live filter is destroyed. -/
def admissible (w : World) : Action → Bool
  | .newConnection i _ _ status withHandle =>
    (match w.gates[i]? with
      | some g => decide (g.stage = .constructed)
      | none => false) &&
    decide (status = .InCache ∨ status = .Loading ∨ status = .Overflow) &&
    decide (withHandle = true ↔ status = .Loading)
  | .loadComplete h _ =>
    (w.registered.lookup h).isSome && decide (h ∉ w.cancelled) && decide (h ∉ w.completed)
  | .destroy i =>
    match w.gates[i]? with
    | some g => decide (g.stage ≠ .destroyed)
    | none => false

/-- Whether every action of a schedule is admissible in the state in which it happens. -/
def valid (asserts : Bool) : World → List Action → Bool
  | _, [] => true
  | w, a :: rest => admissible w a && valid asserts (step asserts w a) rest

/-- Leases held by the filters. -/
def held (gates : List Gate) : List Token :=
  gates.filterMap (fun g => g.filter.circuit_breaker_)

/-- Whether every filter has been destroyed. -/
def allDestroyed (w : World) : Bool :=
  w.gates.all (fun g => decide (g.stage = .destroyed))

/-- A schedule for three filters: the first waits for its load and is resumed by the callback,
the second finds the entry in the cache, the third gets no lease; then all are destroyed. -/
def exampleSchedule : List Action :=
  [ .newConnection 0 ⟨"example.com", 443⟩ true .Loading true,
    .newConnection 1 ⟨"example.com", 443⟩ true .InCache false,
    .newConnection 2 ⟨"example.com", 443⟩ false .InCache false,
    .loadComplete 0 none,
    .destroy 1,
    .destroy 0,
    .destroy 2 ]

/-- Every lease handed out so far is either in the release log or held by a filter, exactly
once, and nothing else is. -/
def Balanced (w : World) : Prop :=
  ∀ t : Token, w.released.count t + (held w.gates).count t = (List.range w.issued).count t

/-- A destroyed filter holds no lease. -/
def DestroyedClean (w : World) : Prop :=
  ∀ g ∈ w.gates, g.stage = .destroyed → g.filter.circuit_breaker_ = none

/-- Every registration the cache could still fire belongs to a connected filter that stores the
handle and holds a lease. -/
def Outstanding (w : World) : Prop :=
  ∀ (h : Handle) (i : Nat), w.registered.lookup h = some i → h ∉ w.cancelled →
    h ∉ w.completed →
    ∃ g, w.gates[i]? = some g ∧ g.stage = .connected ∧
      g.filter.cache_load_handle_ = some h ∧ g.filter.circuit_breaker_ ≠ none

/-- Every registered handle was numbered before the next one. -/
def Fresh (w : World) : Prop :=
  ∀ (h : Handle) (i : Nat), w.registered.lookup h = some i → h < w.handles

/-- The filter to which the cache delivers a callback when the action happens in this state,
if it delivers one; this is the guard under which the `loadComplete` step runs
`onLoadDnsCacheComplete`. -/
def firesAt (w : World) : Action → Option Nat
  | .loadComplete h _ =>
    if w.aborted then none else
    match w.registered.lookup h with
    | none => none
    | some i =>
      if h ∈ w.cancelled ∨ h ∈ w.completed then none else
      match w.gates[i]? with
      | none => none
      | some _ => some i
  | _ => none

/-- The filters that receive a callback during a schedule, in order. -/
def deliveries (asserts : Bool) : World → List Action → List Nat
  | _, [] => []
  | w, a :: rest => (firesAt w a).toList ++ deliveries asserts (step asserts w a) rest

/-- Filter `i` is destroyed and the cache can fire none of the callbacks it registered. -/
def Retired (w : World) (i : Nat) : Prop :=
  (∃ g, w.gates[i]? = some g ∧ g.stage = .destroyed) ∧
  ∀ h : Handle, w.registered.lookup h = some i → h ∈ w.cancelled ∨ h ∈ w.completed

/-- A schedule that leaves one filter waiting for its load. -/
def pendingSchedule : List Action :=
  [ .newConnection 0 ⟨"example.com", 443⟩ true .Loading true ]

/-! ## Reading a concatenated action list -/

theorem acquiredTokens_append (a b : List Event) :
    acquiredTokens (a ++ b) = acquiredTokens a ++ acquiredTokens b := by
  induction a with
  | nil => rfl
  | cons e es ih =>
    cases e with
    | canCreateDnsRequest g => cases g <;> simp [acquiredTokens, ih]
    | _ => simp [acquiredTokens, ih]

theorem releasedTokens_append (a b : List Event) :
    releasedTokens (a ++ b) = releasedTokens a ++ releasedTokens b := by
  induction a with
  | nil => rfl
  | cons e es ih => cases e <;> simp [releasedTokens, ih]

theorem loadCalls_append (a b : List Event) :
    loadCalls (a ++ b) = loadCalls a ++ loadCalls b := by
  induction a with
  | nil => rfl
  | cons e es ih => cases e <;> simp [loadCalls, ih]

theorem closes_append (a b : List Event) :
    closes (a ++ b) = closes a ++ closes b := by
  induction a with
  | nil => rfl
  | cons e es ih => cases e <;> simp [closes, ih]

theorem continueReadingCalls_append (a b : List Event) :
    continueReadingCalls (a ++ b) = continueReadingCalls a + continueReadingCalls b := by
  induction a with
  | nil => simp [continueReadingCalls]
  | cons e es ih =>
    cases e with
    | continueReading => simp [continueReadingCalls, ih]; omega
    | _ => simp [continueReadingCalls, ih]

theorem cancelledHandles_append (a b : List Event) :
    cancelledHandles (a ++ b) = cancelledHandles a ++ cancelledHandles b := by
  induction a with
  | nil => rfl
  | cons e es ih => cases e <;> simp [cancelledHandles, ih]

theorem releasedTokens_dropToken (o : Option Token) :
    releasedTokens (dropToken o) = o.toList := by
  cases o <;> rfl

theorem releasedTokens_dropHandle (o : Option Handle) :
    releasedTokens (dropHandle o) = [] := by
  cases o <;> rfl

theorem acquiredTokens_dropToken (o : Option Token) : acquiredTokens (dropToken o) = [] := by
  cases o <;> rfl

theorem acquiredTokens_dropHandle (o : Option Handle) : acquiredTokens (dropHandle o) = [] := by
  cases o <;> rfl

theorem loadCalls_dropToken (o : Option Token) : loadCalls (dropToken o) = [] := by
  cases o <;> rfl

theorem loadCalls_dropHandle (o : Option Handle) : loadCalls (dropHandle o) = [] := by
  cases o <;> rfl

theorem closes_dropToken (o : Option Token) : closes (dropToken o) = [] := by
  cases o <;> rfl

theorem closes_dropHandle (o : Option Handle) : closes (dropHandle o) = [] := by
  cases o <;> rfl

theorem continueReadingCalls_dropToken (o : Option Token) :
    continueReadingCalls (dropToken o) = 0 := by
  cases o <;> rfl

theorem continueReadingCalls_dropHandle (o : Option Handle) :
    continueReadingCalls (dropHandle o) = 0 := by
  cases o <;> rfl

theorem cancelledHandles_dropToken (o : Option Token) : cancelledHandles (dropToken o) = [] := by
  cases o <;> rfl

theorem cancelledHandles_dropHandle (o : Option Handle) :
    cancelledHandles (dropHandle o) = o.toList := by
  cases o <;> rfl

/-! ## The paths through `onNewConnection` -/

/-- With an empty server name the call does nothing and lets the connection through. -/
theorem onNewConnection_eq_of_empty_sni (asserts : Bool) (cache : DnsCache) (port : Nat)
    (self : ProxyFilter) :
    onNewConnection asserts cache ⟨"", port⟩ self
      = { filter := self, events := [], outcome := .returned .Continue } := by
  simp [onNewConnection, String.isEmpty_iff]

/-- With a server name and no lease available the call closes and stops. -/
theorem onNewConnection_eq_of_no_token (asserts : Bool) (cache : DnsCache) (sni : String)
    (port : Nat) (self : ProxyFilter) (hs : sni ≠ "") (ht : cache.canCreateDnsRequest = none) :
    onNewConnection asserts cache ⟨sni, port⟩ self =
      { filter := { circuit_breaker_ := none, cache_load_handle_ := self.cache_load_handle_ }
        events := Event.canCreateDnsRequest none :: dropToken self.circuit_breaker_ ++
          [Event.close .NoFlush]
        outcome := .returned .StopIteration } := by
  simp [onNewConnection, String.isEmpty_iff, hs, ht]

/-- Members of the filter after a call in which a lease was granted. -/
theorem onNewConnection_filter_of_token (asserts : Bool) (cache : DnsCache) (sni : String)
    (port : Nat) (self : ProxyFilter) (t : Token) (hs : sni ≠ "")
    (ht : cache.canCreateDnsRequest = some t) :
    (onNewConnection asserts cache ⟨sni, port⟩ self).filter =
      if (cache.loadDnsCacheEntry (host sni port) 0).handle_ = none then
        { circuit_breaker_ := none, cache_load_handle_ := none }
      else
        { circuit_breaker_ := some t
          cache_load_handle_ := (cache.loadDnsCacheEntry (host sni port) 0).handle_ } := by
  simp only [onNewConnection, String.isEmpty_iff, hs, ht]
  cases hh : (cache.loadDnsCacheEntry (host sni port) 0).handle_ <;>
    simp <;> split_ifs <;> rfl

/-- Actions of a call in which a lease was granted: up to the `switch` they do not depend on the
status, and only the `Overflow` branch adds one more. -/
theorem onNewConnection_events_of_token (asserts : Bool) (cache : DnsCache) (sni : String)
    (port : Nat) (self : ProxyFilter) (t : Token) (hs : sni ≠ "")
    (ht : cache.canCreateDnsRequest = some t) :
    (onNewConnection asserts cache ⟨sni, port⟩ self).events =
      (Event.canCreateDnsRequest (some t) :: dropToken self.circuit_breaker_ ++
        Event.loadDnsCacheEntry (host sni port) 0 :: dropHandle self.cache_load_handle_) ++
      (if (cache.loadDnsCacheEntry (host sni port) 0).handle_ = none
        then [Event.tokenReleased t] else []) ++
      (if (cache.loadDnsCacheEntry (host sni port) 0).status_ = .Overflow ∧
          ¬ (asserts = true ∧ (cache.loadDnsCacheEntry (host sni port) 0).handle_ ≠ none)
        then [Event.close .NoFlush] else []) := by
  simp only [onNewConnection, String.isEmpty_iff, hs, ht]
  cases hh : (cache.loadDnsCacheEntry (host sni port) 0).handle_ <;>
    cases asserts <;>
    simp [dropToken, LoadDnsCacheEntryStatus.InCache, LoadDnsCacheEntryStatus.Loading,
      LoadDnsCacheEntryStatus.Overflow] <;>
    split_ifs <;> simp_all

/-- The way a call in which a lease was granted ends: the `switch` on the status, with the
assertion of each branch. -/
theorem onNewConnection_outcome_of_token (asserts : Bool) (cache : DnsCache) (sni : String)
    (port : Nat) (self : ProxyFilter) (t : Token) (hs : sni ≠ "")
    (ht : cache.canCreateDnsRequest = some t) :
    (onNewConnection asserts cache ⟨sni, port⟩ self).outcome =
      if (cache.loadDnsCacheEntry (host sni port) 0).status_ = .InCache then
        if asserts = true ∧ (cache.loadDnsCacheEntry (host sni port) 0).handle_ ≠ none
        then .assertFailure else .returned .Continue
      else if (cache.loadDnsCacheEntry (host sni port) 0).status_ = .Loading then
        if asserts = true ∧ (cache.loadDnsCacheEntry (host sni port) 0).handle_ = none
        then .assertFailure else .returned .StopIteration
      else if (cache.loadDnsCacheEntry (host sni port) 0).status_ = .Overflow then
        if asserts = true ∧ (cache.loadDnsCacheEntry (host sni port) 0).handle_ ≠ none
        then .assertFailure else .returned .StopIteration
      else .notReached := by
  simp only [onNewConnection, String.isEmpty_iff, hs, ht]
  cases hh : (cache.loadDnsCacheEntry (host sni port) 0).handle_ <;>
    cases asserts <;>
    simp <;>
    split_ifs <;> simp_all

/-! ## Lease accounting -/

/-- A call of `onNewConnection` acquires at most the lease the cache offers, and the leases it
releases and the one it ends up holding are the one it held and the one it acquired. -/
theorem onNewConnection_conserves (asserts : Bool) (cache : DnsCache) (conn : Connection)
    (self : ProxyFilter) :
    (acquiredTokens (onNewConnection asserts cache conn self).events = [] ∨
      ∃ k, cache.canCreateDnsRequest = some k ∧
        acquiredTokens (onNewConnection asserts cache conn self).events = [k]) ∧
    ∀ t : Token,
      (releasedTokens (onNewConnection asserts cache conn self).events).count t +
        (onNewConnection asserts cache conn self).filter.circuit_breaker_.toList.count t =
      self.circuit_breaker_.toList.count t +
        (acquiredTokens (onNewConnection asserts cache conn self).events).count t := by
  obtain ⟨sni, port⟩ := conn
  by_cases hs : sni = ""
  · subst hs
    rw [onNewConnection_eq_of_empty_sni]
    simp [acquiredTokens, releasedTokens]
  · cases ht : cache.canCreateDnsRequest with
    | none =>
      rw [onNewConnection_eq_of_no_token asserts cache sni port self hs ht]
      simp [acquiredTokens, releasedTokens, acquiredTokens_append, releasedTokens_append,
        acquiredTokens_dropToken, releasedTokens_dropToken]
    | some k =>
      have hf := onNewConnection_filter_of_token asserts cache sni port self k hs ht
      have he := onNewConnection_events_of_token asserts cache sni port self k hs ht
      rw [hf, he]
      refine ⟨Or.inr ⟨k, rfl, ?_⟩, ?_⟩
      · split_ifs <;>
          simp [acquiredTokens, acquiredTokens_append, acquiredTokens_dropToken,
            acquiredTokens_dropHandle]
      · intro t
        split_ifs <;>
          simp [acquiredTokens, releasedTokens, acquiredTokens_append, releasedTokens_append,
            acquiredTokens_dropToken, releasedTokens_dropToken, acquiredTokens_dropHandle,
            releasedTokens_dropHandle, List.count_cons]

/-- A call of `onLoadDnsCacheComplete` acquires nothing, and releases what it held unless it
keeps it. -/
theorem onLoadDnsCacheComplete_conserves (asserts : Bool) (info : DnsHostInfoSharedPtr)
    (self : ProxyFilter) :
    acquiredTokens (onLoadDnsCacheComplete asserts info self).events = [] ∧
    ∀ t : Token,
      (releasedTokens (onLoadDnsCacheComplete asserts info self).events).count t +
        (onLoadDnsCacheComplete asserts info self).filter.circuit_breaker_.toList.count t =
      self.circuit_breaker_.toList.count t := by
  unfold onLoadDnsCacheComplete
  split_ifs with h
  · simp at h
    simp [acquiredTokens, releasedTokens, h.2]
  · simp [acquiredTokens, releasedTokens, acquiredTokens_append, releasedTokens_append,
      acquiredTokens_dropToken, releasedTokens_dropToken]

/-- Destroying a filter acquires nothing and releases what it held. -/
theorem destroyFilter_conserves (self : ProxyFilter) :
    acquiredTokens (destroyFilter self).events = [] ∧
    ∀ t : Token,
      (releasedTokens (destroyFilter self).events).count t +
        (destroyFilter self).filter.circuit_breaker_.toList.count t =
      self.circuit_breaker_.toList.count t := by
  simp [destroyFilter, acquiredTokens_append, releasedTokens_append,
    acquiredTokens_dropToken, releasedTokens_dropToken, acquiredTokens_dropHandle,
    releasedTokens_dropHandle]

/-- Replacing one filter in the list changes the held leases by what that filter holds. -/
theorem held_set (t : Token) (g' : Gate) : ∀ (gates : List Gate) (i : Nat) (g : Gate),
    gates[i]? = some g →
    (held (gates.set i g')).count t + g.filter.circuit_breaker_.toList.count t =
      (held gates).count t + g'.filter.circuit_breaker_.toList.count t := by
  intro gates
  induction gates with
  | nil => intro i g h; simp at h
  | cons x xs ih =>
    intro i g h
    cases i with
    | zero =>
      simp only [List.getElem?_cons_zero, Option.some.injEq] at h
      subst h
      simp only [List.set_cons_zero, held, List.filterMap_cons]
      cases hx : x.filter.circuit_breaker_ <;> cases hg : g'.filter.circuit_breaker_ <;>
        simp [List.count_cons]
      omega
    | succ j =>
      simp only [List.getElem?_cons_succ] at h
      have := ih j g h
      simp only [List.set_cons_succ, held, List.filterMap_cons] at this ⊢
      cases hx : x.filter.circuit_breaker_ <;> simp [List.count_cons] <;> omega

/-- Bookkeeping step: when filter `i` is replaced after a call that conserves leases and
acquires at most the next lease, the accounting stays balanced. -/
theorem balanced_update (w : World) (i : Nat) (g g' : Gate) (es : List Event)
    (hg : w.gates[i]? = some g)
    (hA : acquiredTokens es = [] ∨ acquiredTokens es = [w.issued])
    (hc : ∀ t : Token, (releasedTokens es).count t + g'.filter.circuit_breaker_.toList.count t =
      g.filter.circuit_breaker_.toList.count t + (acquiredTokens es).count t)
    (hb : Balanced w) (t : Token) :
    (w.released ++ releasedTokens es).count t + (held (w.gates.set i g')).count t =
      (List.range (w.issued + (acquiredTokens es).length)).count t := by
  have h1 := hb t
  have h2 := hc t
  have h3 := held_set t g' w.gates i g hg
  rw [List.count_append]
  rcases hA with hA | hA
  · rw [hA] at h2 ⊢
    simp only [List.count_nil, List.length_nil, Nat.add_zero] at h2 ⊢
    omega
  · rw [hA] at h2 ⊢
    simp only [List.length_singleton, List.range_succ, List.count_append] at h2 ⊢
    omega

/-- The accounting stays balanced under every step. -/
theorem step_balanced (asserts : Bool) (w : World) (a : Action) (hb : Balanced w) :
    Balanced (step asserts w a) := by
  by_cases hab : w.aborted = true
  · have : step asserts w a = w := by cases a <;> simp [step, hab]
    rw [this]; exact hb
  cases a with
  | newConnection i conn available status withHandle =>
    cases hg : w.gates[i]? with
    | none =>
      have : step asserts w (.newConnection i conn available status withHandle) = w := by
        simp [step, hg]
      rw [this]; exact hb
    | some g =>
      by_cases hst : g.stage = .destroyed
      · have : step asserts w (.newConnection i conn available status withHandle) = w := by
          simp [step, hg, hst]
        rw [this]; exact hb
      · intro t
        have hc := onNewConnection_conserves asserts (w.cache available status withHandle)
          conn g.filter
        have hA : acquiredTokens (onNewConnection asserts
              (w.cache available status withHandle) conn g.filter).events = [] ∨
            acquiredTokens (onNewConnection asserts
              (w.cache available status withHandle) conn g.filter).events = [w.issued] := by
          rcases hc.1 with h | ⟨k, hk, h⟩
          · exact Or.inl h
          · right
            rw [h]
            cases available <;> simp [World.cache] at hk
            rw [hk]
        have := balanced_update w i g
          { stage := .connected
            filter := (onNewConnection asserts (w.cache available status withHandle)
              conn g.filter).filter } _ hg hA hc.2 hb t
        simpa [step, hab, hg, hst, World.record] using this
  | loadComplete h info =>
    cases hl : w.registered.lookup h with
    | none =>
      have : step asserts w (.loadComplete h info) = w := by simp [step, hl]
      rw [this]; exact hb
    | some i =>
      by_cases hc : h ∈ w.cancelled ∨ h ∈ w.completed
      · have : step asserts w (.loadComplete h info) = w := by simp [step, hl, hc]
        rw [this]; exact hb
      · cases hg : w.gates[i]? with
        | none =>
          have : step asserts w (.loadComplete h info) = w := by simp [step, hl, hc, hg]
          rw [this]; exact hb
        | some g =>
          intro t
          have hcons := onLoadDnsCacheComplete_conserves asserts info g.filter
          have := balanced_update w i g
            { stage := g.stage, filter := (onLoadDnsCacheComplete asserts info g.filter).filter }
            _ hg (Or.inl hcons.1) (by intro t; rw [hcons.1]; simpa using hcons.2 t) hb t
          simpa [step, hab, hl, hc, hg, World.record] using this
  | destroy i =>
    cases hg : w.gates[i]? with
    | none =>
      have : step asserts w (.destroy i) = w := by simp [step, hg]
      rw [this]; exact hb
    | some g =>
      by_cases hst : g.stage = .destroyed
      · have : step asserts w (.destroy i) = w := by simp [step, hg, hst]
        rw [this]; exact hb
      · intro t
        have hcons := destroyFilter_conserves g.filter
        have := balanced_update w i g
          { stage := .destroyed, filter := (destroyFilter g.filter).filter }
          _ hg (Or.inl hcons.1) (by intro t; rw [hcons.1]; simpa using hcons.2 t) hb t
        simpa [step, hab, hg, hst, World.record] using this

/-- A filter on which `onLoadDnsCacheComplete` ran holds no lease if it held none before. -/
theorem onLoadDnsCacheComplete_filter_none (asserts : Bool) (info : DnsHostInfoSharedPtr)
    (self : ProxyFilter) (h : self.circuit_breaker_ = none) :
    (onLoadDnsCacheComplete asserts info self).filter.circuit_breaker_ = none := by
  unfold onLoadDnsCacheComplete
  split_ifs <;> simp [h]

/-- Destroyed filters hold no lease, after every step. -/
theorem step_destroyedClean (asserts : Bool) (w : World) (a : Action) (hd : DestroyedClean w) :
    DestroyedClean (step asserts w a) := by
  by_cases hab : w.aborted = true
  · have : step asserts w a = w := by cases a <;> simp [step, hab]
    rw [this]; exact hd
  cases a with
  | newConnection i conn available status withHandle =>
    cases hg : w.gates[i]? with
    | none =>
      have : step asserts w (.newConnection i conn available status withHandle) = w := by
        simp [step, hg]
      rw [this]; exact hd
    | some g =>
      by_cases hst : g.stage = .destroyed
      · have : step asserts w (.newConnection i conn available status withHandle) = w := by
          simp [step, hg, hst]
        rw [this]; exact hd
      · intro x hx hxs
        simp only [step, hab, hg, hst, World.record, Bool.false_eq_true, if_false] at hx
        rcases List.mem_or_eq_of_mem_set hx with h | h
        · exact hd x h hxs
        · rw [h] at hxs; cases hxs
  | loadComplete h info =>
    cases hl : w.registered.lookup h with
    | none =>
      have : step asserts w (.loadComplete h info) = w := by simp [step, hl]
      rw [this]; exact hd
    | some i =>
      by_cases hc : h ∈ w.cancelled ∨ h ∈ w.completed
      · have : step asserts w (.loadComplete h info) = w := by simp [step, hl, hc]
        rw [this]; exact hd
      · cases hg : w.gates[i]? with
        | none =>
          have : step asserts w (.loadComplete h info) = w := by simp [step, hl, hc, hg]
          rw [this]; exact hd
        | some g =>
          intro x hx hxs
          simp only [step, hab, hl, hc, hg, World.record, Bool.false_eq_true, if_false] at hx
          rcases List.mem_or_eq_of_mem_set hx with h' | h'
          · exact hd x h' hxs
          · rw [h'] at hxs ⊢
            exact onLoadDnsCacheComplete_filter_none asserts info g.filter
              (hd g (List.getElem?_mem hg) hxs)
  | destroy i =>
    cases hg : w.gates[i]? with
    | none =>
      have : step asserts w (.destroy i) = w := by simp [step, hg]
      rw [this]; exact hd
    | some g =>
      by_cases hst : g.stage = .destroyed
      · have : step asserts w (.destroy i) = w := by simp [step, hg, hst]
        rw [this]; exact hd
      · intro x hx hxs
        simp only [step, hab, hg, hst, World.record, Bool.false_eq_true, if_false] at hx
        rcases List.mem_or_eq_of_mem_set hx with h | h
        · exact hd x h hxs
        · rw [h]; rfl

/-- Both accounting invariants hold after every schedule, admissible or not. -/
theorem run_balanced (asserts : Bool) (schedule : List Action) : ∀ w : World,
    Balanced w → DestroyedClean w →
    Balanced (run asserts w schedule) ∧ DestroyedClean (run asserts w schedule) := by
  induction schedule with
  | nil => intro w hb hd; exact ⟨hb, hd⟩
  | cons a rest ih =>
    intro w hb hd
    exact ih (step asserts w a) (step_balanced asserts w a hb) (step_destroyedClean asserts w a hd)

/-- The initial state is balanced. -/
theorem init_balanced (n : Nat) : Balanced (World.init n) := by
  intro t
  have : held (List.replicate n
      ({ stage := .constructed, filter := ProxyFilter.ProxyFilter } : Gate)) = [] := by
    simp [held, List.filterMap_eq_nil_iff, ProxyFilter.ProxyFilter]
  simp [World.init, this]

/-- No filter of the initial state is destroyed. -/
theorem init_destroyedClean (n : Nat) : DestroyedClean (World.init n) := by
  intro g hg hs
  simp only [World.init, List.mem_replicate] at hg
  rw [hg.2] at hs
  cases hs

/-- Once every filter is destroyed, a balanced log holds each lease handed out exactly once. -/
theorem balanced_final (w : World) (hb : Balanced w) (hd : DestroyedClean w)
    (hall : allDestroyed w = true) :
    w.issued = w.released.length ∧ w.released.Nodup := by
  have hheld : held w.gates = [] := by
    simp only [held, List.filterMap_eq_nil_iff]
    intro g hg
    simp only [allDestroyed, List.all_eq_true, decide_eq_true_eq] at hall
    exact hd g hg (hall g hg)
  have hcount : ∀ t : Token, w.released.count t = (List.range w.issued).count t := by
    intro t
    have := hb t
    rw [hheld] at this
    simpa using this
  have hperm : w.released.Perm (List.range w.issued) := List.perm_iff_count.mpr hcount
  refine ⟨?_, ?_⟩
  · have := hperm.length_eq
    simpa using this.symm
  · exact hperm.nodup_iff.mpr (List.nodup_range w.issued)

/-! ## Admissible schedules never abort -/

/-- When the load answer has one of the three statuses and carries a handle exactly for
`Loading`, `onNewConnection` returns. -/
theorem onNewConnection_isAbort_of_contract (asserts : Bool) (cache : DnsCache)
    (conn : Connection) (self : ProxyFilter)
    (hst : ∀ key, (cache.loadDnsCacheEntry key 0).status_ = .InCache ∨
      (cache.loadDnsCacheEntry key 0).status_ = .Loading ∨
      (cache.loadDnsCacheEntry key 0).status_ = .Overflow)
    (hh : ∀ key, (cache.loadDnsCacheEntry key 0).handle_ ≠ none ↔
      (cache.loadDnsCacheEntry key 0).status_ = .Loading) :
    (onNewConnection asserts cache conn self).outcome.isAbort = false := by
  obtain ⟨sni, port⟩ := conn
  by_cases hs : sni = ""
  · subst hs
    rw [onNewConnection_eq_of_empty_sni]
    rfl
  · cases ht : cache.canCreateDnsRequest with
    | none =>
      rw [onNewConnection_eq_of_no_token asserts cache sni port self hs ht]
      rfl
    | some t =>
      rw [onNewConnection_outcome_of_token asserts cache sni port self t hs ht]
      have h1 := hst (host sni port)
      have h2 := hh (host sni port)
      have d1 : LoadDnsCacheEntryStatus.InCache ≠ LoadDnsCacheEntryStatus.Loading := by decide
      have d2 : LoadDnsCacheEntryStatus.Overflow ≠ LoadDnsCacheEntryStatus.Loading := by decide
      rcases h1 with h1 | h1 | h1
      · have h3 : (cache.loadDnsCacheEntry (host sni port) 0).handle_ = none := by
          by_contra hne
          exact d1 (h1 ▸ h2.mp hne)
        simp [h1, h3, Outcome.isAbort]
      · have h3 : (cache.loadDnsCacheEntry (host sni port) 0).handle_ ≠ none := h2.mpr h1
        simp [h1, h3, Outcome.isAbort, LoadDnsCacheEntryStatus.InCache,
          LoadDnsCacheEntryStatus.Loading]
      · have h3 : (cache.loadDnsCacheEntry (host sni port) 0).handle_ = none := by
          by_contra hne
          exact d2 (h1 ▸ h2.mp hne)
        simp [h1, h3, Outcome.isAbort, LoadDnsCacheEntryStatus.InCache,
          LoadDnsCacheEntryStatus.Loading, LoadDnsCacheEntryStatus.Overflow]

/-- A call that submitted a load request answered with a handle ends storing that handle and
holding a lease. -/
theorem onNewConnection_filter_of_load (asserts : Bool) (cache : DnsCache)
    (conn : Connection) (self : ProxyFilter) (h : Handle)
    (hl : loadCalls (onNewConnection asserts cache conn self).events ≠ [])
    (hh : ∀ key, (cache.loadDnsCacheEntry key 0).handle_ = some h) :
    (onNewConnection asserts cache conn self).filter.cache_load_handle_ = some h ∧
    (onNewConnection asserts cache conn self).filter.circuit_breaker_ ≠ none := by
  obtain ⟨sni, port⟩ := conn
  by_cases hs : sni = ""
  · subst hs
    rw [onNewConnection_eq_of_empty_sni] at hl
    simp [loadCalls] at hl
  · cases ht : cache.canCreateDnsRequest with
    | none =>
      rw [onNewConnection_eq_of_no_token asserts cache sni port self hs ht] at hl
      simp [loadCalls, loadCalls_append, loadCalls_dropToken] at hl
    | some t =>
      rw [onNewConnection_filter_of_token asserts cache sni port self t hs ht]
      simp [hh (host sni port)]

/-- On a filter that holds a lease `onLoadDnsCacheComplete` returns, keeps the handle and
cancels nothing. -/
theorem onLoadDnsCacheComplete_of_token (asserts : Bool) (info : DnsHostInfoSharedPtr)
    (self : ProxyFilter) (h : self.circuit_breaker_ ≠ none) :
    (onLoadDnsCacheComplete asserts info self).outcome.isAbort = false ∧
    cancelledHandles (onLoadDnsCacheComplete asserts info self).events = [] := by
  cases hc : self.circuit_breaker_ with
  | none => exact absurd hc h
  | some t =>
    simp [onLoadDnsCacheComplete, hc, Outcome.isAbort, cancelledHandles, dropToken]

/-- An admissible `onNewConnection` keeps the registrations sound and does not abort. -/
theorem step_newConnection_inv (asserts : Bool) (w : World) (i : Nat) (conn : Connection)
    (available : Bool) (status : LoadDnsCacheEntryStatus) (withHandle : Bool)
    (ho : Outstanding w) (hf : Fresh w) (hab : w.aborted = false)
    (had : admissible w (.newConnection i conn available status withHandle) = true) :
    Outstanding (step asserts w (.newConnection i conn available status withHandle)) ∧
    Fresh (step asserts w (.newConnection i conn available status withHandle)) ∧
    (step asserts w (.newConnection i conn available status withHandle)).aborted = false := by
  cases hg : w.gates[i]? with
  | none => simp [admissible, hg] at had
  | some g =>
    simp only [admissible, hg, Bool.and_eq_true, decide_eq_true_eq] at had
    obtain ⟨⟨hstage, hstatus⟩, hcontract⟩ := had
    have hnd : g.stage ≠ .destroyed := by rw [hstage]; decide
    have hlt : i < w.gates.length := (List.getElem?_eq_some.mp hg).1
    -- no registration the cache could still fire belongs to a filter that is not connected
    have hother : ∀ (h : Handle) (j : Nat), w.registered.lookup h = some j → h ∉ w.cancelled →
        h ∉ w.completed → j ≠ i := by
      intro h j hl hc hd hji
      obtain ⟨g0, hg0, hs0, _⟩ := ho h j hl hc hd
      rw [hji, hg] at hg0
      cases hg0
      rw [hstage] at hs0
      cases hs0
    have hno : (onNewConnection asserts (w.cache available status withHandle) conn
        g.filter).outcome.isAbort = false := by
      apply onNewConnection_isAbort_of_contract
      · intro key; exact hstatus
      · intro key
        cases withHandle <;> simp [World.cache] at hcontract ⊢
        · exact fun h => hcontract h
        · exact hcontract
    by_cases hmade : (withHandle && !(loadCalls (onNewConnection asserts
        (w.cache available status withHandle) conn g.filter).events).isEmpty) = true
    · have hwh : withHandle = true := by
        cases withHandle
        · simp at hmade
        · rfl
      have hload : loadCalls (onNewConnection asserts (w.cache available status withHandle)
          conn g.filter).events ≠ [] := by
        intro h
        rw [h] at hmade
        simp at hmade
      have hfil := onNewConnection_filter_of_load asserts (w.cache available status withHandle)
        conn g.filter w.handles hload (by intro key; simp [World.cache, hwh])
      refine ⟨?_, ?_, ?_⟩
      · intro h j hl hc hd
        simp only [step, hab, hg, hnd, hmade, World.record, Bool.false_eq_true, if_false,
          if_true, List.lookup_cons] at hl hc hd ⊢
        by_cases hh : h = w.handles
        · subst hh
          simp only [beq_self_eq_true, Option.some.injEq] at hl
          subst hl
          refine ⟨_, List.getElem?_set_self hlt, rfl, hfil.1, hfil.2⟩
        · have hbeq : (h == w.handles) = false := by simpa using hh
          simp only [hbeq] at hl
          have hc0 : h ∉ w.cancelled := fun hm => hc (List.mem_append_left _ hm)
          obtain ⟨g0, hg0, hrest⟩ := ho h j hl hc0 hd
          have hji := hother h j hl hc0 hd
          exact ⟨g0, by rw [List.getElem?_set_ne (Ne.symm hji)]; exact hg0, hrest⟩
      · intro h j hl
        simp only [step, hab, hg, hnd, hmade, World.record, Bool.false_eq_true, if_false,
          if_true, List.lookup_cons] at hl ⊢
        by_cases hh : h = w.handles
        · rw [hh]; exact Nat.lt_succ_self _
        · have hbeq : (h == w.handles) = false := by simpa using hh
          simp only [hbeq] at hl
          exact Nat.lt_succ_of_lt (hf h j hl)
      · simpa [step, hab, hg, hnd, World.record] using hno
    · refine ⟨?_, ?_, ?_⟩
      · intro h j hl hc hd
        simp only [step, hab, hg, hnd, hmade, World.record, Bool.false_eq_true, if_false]
          at hl hc hd ⊢
        have hc0 : h ∉ w.cancelled := fun hm => hc (List.mem_append_left _ hm)
        obtain ⟨g0, hg0, hrest⟩ := ho h j hl hc0 hd
        have hji := hother h j hl hc0 hd
        exact ⟨g0, by rw [List.getElem?_set_ne (Ne.symm hji)]; exact hg0, hrest⟩
      · intro h j hl
        simp only [step, hab, hg, hnd, hmade, World.record, Bool.false_eq_true, if_false]
          at hl ⊢
        exact hf h j hl
      · simpa [step, hab, hg, hnd, World.record] using hno

/-- An admissible callback keeps the registrations sound and does not abort. -/
theorem step_loadComplete_inv (asserts : Bool) (w : World) (h : Handle)
    (info : DnsHostInfoSharedPtr)
    (ho : Outstanding w) (hf : Fresh w) (hab : w.aborted = false)
    (had : admissible w (.loadComplete h info) = true) :
    Outstanding (step asserts w (.loadComplete h info)) ∧
    Fresh (step asserts w (.loadComplete h info)) ∧
    (step asserts w (.loadComplete h info)).aborted = false := by
  simp only [admissible, Bool.and_eq_true, decide_eq_true_eq, Option.isSome_iff_exists] at had
  obtain ⟨⟨⟨i, hl⟩, hnc⟩, hnd⟩ := had
  obtain ⟨g, hg, hstage, hhandle, htoken⟩ := ho h i hl hnc hnd
  have hcd : ¬ (h ∈ w.cancelled ∨ h ∈ w.completed) := by
    intro hx
    rcases hx with hx | hx
    · exact hnc hx
    · exact hnd hx
  have hcall := onLoadDnsCacheComplete_of_token asserts info g.filter htoken
  refine ⟨?_, ?_, ?_⟩
  · intro h' j hl' hc' hd'
    simp only [step, hab, hl, hcd, hg, World.record, Bool.false_eq_true, if_false,
      List.mem_cons, not_or] at hl' hc' hd' ⊢
    have hc0 : h' ∉ w.cancelled := fun hm => hc' (List.mem_append_left _ hm)
    obtain ⟨g0, hg0, hs0, hh0, ht0⟩ := ho h' j hl' hc0 hd'.2
    have hji : j ≠ i := by
      intro hji
      rw [hji, hg] at hg0
      cases hg0
      rw [hhandle] at hh0
      exact hd'.1 (Option.some.inj hh0).symm
    exact ⟨g0, by rw [List.getElem?_set_ne (Ne.symm hji)]; exact hg0, hs0, hh0, ht0⟩
  · intro h' j hl'
    simp only [step, hab, hl, hcd, hg, World.record, Bool.false_eq_true, if_false] at hl' ⊢
    exact hf h' j hl'
  · simpa [step, hab, hl, hcd, hg, World.record] using hcall.1

/-- An admissible destruction keeps the registrations sound and does not abort. -/
theorem step_destroy_inv (asserts : Bool) (w : World) (i : Nat)
    (ho : Outstanding w) (hf : Fresh w) (hab : w.aborted = false)
    (had : admissible w (.destroy i) = true) :
    Outstanding (step asserts w (.destroy i)) ∧
    Fresh (step asserts w (.destroy i)) ∧
    (step asserts w (.destroy i)).aborted = false := by
  cases hg : w.gates[i]? with
  | none => simp [admissible, hg] at had
  | some g =>
    simp only [admissible, hg, decide_eq_true_eq] at had
    refine ⟨?_, ?_, ?_⟩
    · intro h' j hl' hc' hd'
      simp only [step, hab, hg, had, World.record, Bool.false_eq_true, if_false, destroyFilter,
        cancelledHandles_append, cancelledHandles_dropHandle, cancelledHandles_dropToken,
        List.append_nil, List.mem_append, not_or] at hl' hc' hd' ⊢
      obtain ⟨g0, hg0, hs0, hh0, ht0⟩ := ho h' j hl' hc'.1 hd'
      have hji : j ≠ i := by
        intro hji
        rw [hji, hg] at hg0
        cases hg0
        rw [hh0] at hc'
        exact hc'.2 (by simp)
      exact ⟨g0, by rw [List.getElem?_set_ne (Ne.symm hji)]; exact hg0, hs0, hh0, ht0⟩
    · intro h' j hl'
      simp only [step, hab, hg, had, World.record, Bool.false_eq_true, if_false] at hl' ⊢
      exact hf h' j hl'
    · simp [step, hab, hg, had, World.record, destroyFilter, Outcome.isAbort]

/-- After a valid schedule the registrations are sound and the process has not aborted. -/
theorem run_inv (asserts : Bool) (schedule : List Action) : ∀ w : World,
    Outstanding w → Fresh w → w.aborted = false → valid asserts w schedule = true →
    Outstanding (run asserts w schedule) ∧ Fresh (run asserts w schedule) ∧
      (run asserts w schedule).aborted = false := by
  induction schedule with
  | nil => intro w ho hf hab _; exact ⟨ho, hf, hab⟩
  | cons a rest ih =>
    intro w ho hf hab hv
    simp only [valid, Bool.and_eq_true] at hv
    have hstep : Outstanding (step asserts w a) ∧ Fresh (step asserts w a) ∧
        (step asserts w a).aborted = false := by
      cases a with
      | newConnection i conn available status withHandle =>
        exact step_newConnection_inv asserts w i conn available status withHandle ho hf hab hv.1
      | loadComplete h info => exact step_loadComplete_inv asserts w h info ho hf hab hv.1
      | destroy i => exact step_destroy_inv asserts w i ho hf hab hv.1
    exact ih (step asserts w a) hstep.1 hstep.2.1 hstep.2.2 hv.2

/-- The cache of the initial state has no registration. -/
theorem init_outstanding (n : Nat) : Outstanding (World.init n) := by
  intro h i hl
  simp [World.init] at hl

/-- The cache of the initial state has numbered no handle. -/
theorem init_fresh (n : Nat) : Fresh (World.init n) := by
  intro h i hl
  simp [World.init] at hl

/-! ## The cache key -/

theorem digitChar_toNat (n : Nat) (h : n < 10) : (Nat.digitChar n).toNat - 48 = n := by
  interval_cases n <;> rfl

theorem digitChar_ne_colon (n : Nat) (h : n < 10) : Nat.digitChar n ≠ ':' := by
  interval_cases n <;> decide

/-- The digits already produced are only appended to. -/
theorem toDigitsCore_acc (fuel : Nat) : ∀ (n : Nat) (ds : List Char),
    Nat.toDigitsCore 10 fuel n ds = Nat.toDigitsCore 10 fuel n [] ++ ds := by
  induction fuel with
  | zero => intro n ds; simp [Nat.toDigitsCore]
  | succ f ih =>
    intro n ds
    simp only [Nat.toDigitsCore]
    split_ifs with h0
    · simp
    · rw [ih (n / 10) (Nat.digitChar (n % 10) :: ds), ih (n / 10) [Nat.digitChar (n % 10)]]
      simp

/-- Reading the decimal digits of a number back gives the number. -/
theorem decimalValue_toDigitsCore (fuel : Nat) : ∀ n : Nat, n < fuel →
    decimalValue (Nat.toDigitsCore 10 fuel n []) = n := by
  induction fuel with
  | zero => intro n h; omega
  | succ f ih =>
    intro n h
    simp only [Nat.toDigitsCore]
    split_ifs with h0
    · simp [decimalValue, digitChar_toNat (n % 10) (Nat.mod_lt _ (by norm_num))]
      omega
    · rw [toDigitsCore_acc]
      have hlt : n / 10 < f := by omega
      have := ih (n / 10) hlt
      simp only [decimalValue, List.foldl_append, List.foldl_cons, List.foldl_nil] at this ⊢
      rw [this, digitChar_toNat (n % 10) (Nat.mod_lt _ (by norm_num))]
      omega

/-- No colon occurs among the decimal digits of a number. -/
theorem colon_not_mem_toDigitsCore (fuel : Nat) : ∀ n : Nat,
    ':' ∉ Nat.toDigitsCore 10 fuel n [] := by
  induction fuel with
  | zero => intro n; simp [Nat.toDigitsCore]
  | succ f ih =>
    intro n
    simp only [Nat.toDigitsCore]
    have hd := digitChar_ne_colon (n % 10) (Nat.mod_lt _ (by norm_num))
    split_ifs with h0
    · simpa using hd.symm
    · rw [toDigitsCore_acc]
      simp only [List.mem_append, List.mem_singleton, not_or]
      exact ⟨ih _, hd.symm⟩

theorem toDigits_injective (p q : Nat) (h : Nat.toDigits 10 p = Nat.toDigits 10 q) : p = q := by
  have hp := decimalValue_toDigitsCore (p + 1) p (by omega)
  have hq := decimalValue_toDigitsCore (q + 1) q (by omega)
  unfold Nat.toDigits at h
  rw [h] at hp
  omega

/-- Two lists cut at a separator that does not occur after the cut agree part by part. -/
theorem append_sep_inj {α : Type} (c : α) : ∀ (l₁ l₂ r₁ r₂ : List α),
    c ∉ r₁ → c ∉ r₂ → l₁ ++ c :: r₁ = l₂ ++ c :: r₂ → l₁ = l₂ ∧ r₁ = r₂ := by
  intro l₁
  induction l₁ with
  | nil =>
    intro l₂ r₁ r₂ h1 h2 h
    cases l₂ with
    | nil => simpa using h
    | cons x xs =>
      simp only [List.nil_append, List.cons_append, List.cons.injEq] at h
      exact absurd (h.2 ▸ (by simp : c ∈ xs ++ c :: r₂)) h1
  | cons y ys ih =>
    intro l₂ r₁ r₂ h1 h2 h
    cases l₂ with
    | nil =>
      simp only [List.nil_append, List.cons_append, List.cons.injEq] at h
      exact absurd (h.2 ▸ (by simp : c ∈ ys ++ c :: r₁)) h2
    | cons x xs =>
      simp only [List.cons_append, List.cons.injEq] at h
      obtain ⟨hl, hr⟩ := ih xs r₁ r₂ h1 h2 h.2
      exact ⟨by rw [h.1, hl], hr⟩

/-- The characters of a key: those of the server name, a colon, the decimal digits. -/
theorem host_data (sni : String) (port : Nat) :
    (host sni port).data = sni.data ++ ':' :: Nat.toDigits 10 port := by
  simp [host, String.data_append, toString, Nat.repr]
  rfl

/-! ## Teardown -/

/-- A destroyed filter whose registrations are all cancelled or completed stays so under every
step, and the step delivers no callback to it. -/
theorem step_retired (asserts : Bool) (w : World) (a : Action) (i : Nat)
    (hr : Retired w i) :
    Retired (step asserts w a) i ∧ firesAt w a ≠ some i := by
  obtain ⟨⟨gi, hgi, hsi⟩, hreg⟩ := hr
  have hsame : Retired w i := ⟨⟨gi, hgi, hsi⟩, hreg⟩
  by_cases hab : w.aborted = true
  · have h1 : step asserts w a = w := by cases a <;> simp [step, hab]
    have h2 : firesAt w a = none := by cases a <;> simp [firesAt, hab]
    rw [h1, h2]
    exact ⟨hsame, by simp⟩
  cases a with
  | newConnection j conn available status withHandle =>
    refine ⟨?_, by simp [firesAt]⟩
    cases hg : w.gates[j]? with
    | none =>
      have : step asserts w (.newConnection j conn available status withHandle) = w := by
        simp [step, hg]
      rw [this]; exact hsame
    | some g =>
      by_cases hst : g.stage = .destroyed
      · have : step asserts w (.newConnection j conn available status withHandle) = w := by
          simp [step, hg, hst]
        rw [this]; exact hsame
      · have hji : j ≠ i := by
          intro hji
          rw [hji, hgi] at hg
          cases hg
          exact hst hsi
        refine ⟨⟨gi, ?_, hsi⟩, ?_⟩
        · simp only [step, hab, hg, hst, World.record, Bool.false_eq_true, if_false]
          rw [List.getElem?_set_ne hji]
          exact hgi
        · intro h hl
          simp only [step, hab, hg, hst, World.record, Bool.false_eq_true, if_false]
            at hl ⊢
          have hold : w.registered.lookup h = some i := by
            split_ifs at hl with hmade
            · rw [List.lookup_cons] at hl
              by_cases hh : (h == w.handles) = true
              · simp only [hh, Option.some.injEq] at hl
                exact absurd hl hji
              · have hb : (h == w.handles) = false := by simpa using hh
                simpa only [hb] using hl
            · exact hl
          rcases hreg h hold with hc | hc
          · exact Or.inl (List.mem_append_left _ hc)
          · exact Or.inr hc
  | loadComplete h info =>
    cases hl : w.registered.lookup h with
    | none =>
      have h1 : step asserts w (.loadComplete h info) = w := by simp [step, hl]
      have h2 : firesAt w (.loadComplete h info) = none := by simp [firesAt, hl]
      rw [h1, h2]
      exact ⟨hsame, by simp⟩
    | some j =>
      by_cases hc : h ∈ w.cancelled ∨ h ∈ w.completed
      · have h1 : step asserts w (.loadComplete h info) = w := by simp [step, hl, hc]
        have h2 : firesAt w (.loadComplete h info) = none := by simp [firesAt, hl, hc]
        rw [h1, h2]
        exact ⟨hsame, by simp⟩
      · have hji : j ≠ i := by
          intro hji
          rw [hji] at hl
          exact hc (hreg h hl)
        cases hg : w.gates[j]? with
        | none =>
          have h1 : step asserts w (.loadComplete h info) = w := by simp [step, hl, hc, hg]
          have h2 : firesAt w (.loadComplete h info) = none := by
            simp [firesAt, hl, hc, hg]
          rw [h1, h2]
          exact ⟨hsame, by simp⟩
        | some g =>
          refine ⟨⟨⟨gi, ?_, hsi⟩, ?_⟩, ?_⟩
          · simp only [step, hab, hl, hc, hg, World.record, Bool.false_eq_true, if_false]
            rw [List.getElem?_set_ne hji]
            exact hgi
          · intro h' hl'
            simp only [step, hab, hl, hc, hg, World.record, Bool.false_eq_true, if_false]
              at hl' ⊢
            rcases hreg h' hl' with hx | hx
            · exact Or.inl (List.mem_append_left _ hx)
            · exact Or.inr (List.mem_cons_of_mem _ hx)
          · simp only [firesAt, hab, hl, hc, hg, Bool.false_eq_true, if_false, ne_eq,
              Option.some.injEq]
            exact hji
  | destroy j =>
    refine ⟨?_, by simp [firesAt]⟩
    cases hg : w.gates[j]? with
    | none =>
      have : step asserts w (.destroy j) = w := by simp [step, hg]
      rw [this]; exact hsame
    | some g =>
      by_cases hst : g.stage = .destroyed
      · have : step asserts w (.destroy j) = w := by simp [step, hg, hst]
        rw [this]; exact hsame
      · have hji : j ≠ i := by
          intro hji
          rw [hji, hgi] at hg
          cases hg
          exact hst hsi
        refine ⟨⟨gi, ?_, hsi⟩, ?_⟩
        · simp only [step, hab, hg, hst, World.record, Bool.false_eq_true, if_false]
          rw [List.getElem?_set_ne hji]
          exact hgi
        · intro h hl
          simp only [step, hab, hg, hst, World.record, Bool.false_eq_true, if_false]
            at hl ⊢
          rcases hreg h hl with hc | hc
          · exact Or.inl (List.mem_append_left _ hc)
          · exact Or.inr hc

/-- No callback is delivered to a retired filter, whatever happens next. -/
theorem deliveries_retired (asserts : Bool) (i : Nat) (schedule : List Action) :
    ∀ w : World, Retired w i → i ∉ deliveries asserts w schedule := by
  induction schedule with
  | nil => intro w _; simp [deliveries]
  | cons a rest ih =>
    intro w hr
    have hs := step_retired asserts w a i hr
    simp only [deliveries, List.mem_append, not_or]
    refine ⟨?_, ih _ hs.1⟩
    intro hm
    cases hf : firesAt w a with
    | none => simp [hf] at hm
    | some j =>
      simp only [hf, Option.toList_some, List.mem_singleton] at hm
      exact hs.2 (by rw [hf, hm])

/-- A cancelled handle stays cancelled, and its callback is not fired by any step. -/
theorem step_cancelled (asserts : Bool) (w : World) (a : Action) (h : Handle)
    (hc : h ∈ w.cancelled) :
    h ∈ (step asserts w a).cancelled ∧
    (h ∈ (step asserts w a).completed → h ∈ w.completed) := by
  by_cases hab : w.aborted = true
  · have h1 : step asserts w a = w := by cases a <;> simp [step, hab]
    rw [h1]
    exact ⟨hc, id⟩
  cases a with
  | newConnection j conn available status withHandle =>
    cases hg : w.gates[j]? with
    | none => simp [step, hg, hc]
    | some g =>
      by_cases hst : g.stage = .destroyed
      · simp [step, hg, hst, hc]
      · simp [step, hab, hg, hst, World.record, hc]
  | loadComplete h0 info =>
    cases hl : w.registered.lookup h0 with
    | none => simp [step, hl, hc]
    | some j =>
      by_cases hcc : h0 ∈ w.cancelled ∨ h0 ∈ w.completed
      · simp [step, hl, hcc, hc]
      · cases hg : w.gates[j]? with
        | none => simp [step, hl, hcc, hg, hc]
        | some g =>
          have hne : h ≠ h0 := by
            intro he
            rw [he] at hc
            exact hcc (Or.inl hc)
          simp [step, hab, hl, hcc, hg, World.record, hc, hne]
  | destroy j =>
    cases hg : w.gates[j]? with
    | none => simp [step, hg, hc]
    | some g =>
      by_cases hst : g.stage = .destroyed
      · simp [step, hg, hst, hc]
      · simp [step, hab, hg, hst, World.record, hc]

/-- The callback of a cancelled handle that has not fired never fires. -/
theorem run_cancelled (asserts : Bool) (h : Handle) (schedule : List Action) :
    ∀ w : World, h ∈ w.cancelled → h ∉ w.completed →
      h ∉ (run asserts w schedule).completed := by
  induction schedule with
  | nil => intro w _ hn; exact hn
  | cons a rest ih =>
    intro w hc hn
    have hs := step_cancelled asserts w a h hc
    exact ih (step asserts w a) hs.1 (fun hm => hn (hs.2 hm))

/-! ## When `onNewConnection` lets the connection through -/

/-- In every case `onNewConnection` never calls `continueReading`, and it returns `Continue`
exactly when the server name is empty, or a lease was granted, the load was answered `InCache`
and the assertion of that branch holds (`ASSERT` is compiled out, or the answer carries no
handle). -/
theorem onNewConnection_continue_iff (asserts : Bool) (cache : DnsCache) (sni : String)
    (port : Nat) (self : ProxyFilter) :
    continueReadingCalls (onNewConnection asserts cache ⟨sni, port⟩ self).events = 0 ∧
    ((onNewConnection asserts cache ⟨sni, port⟩ self).outcome = .returned .Continue ↔
      (sni = "" ∨
        (cache.canCreateDnsRequest ≠ none ∧
          (cache.loadDnsCacheEntry (host sni port) 0).status_ = .InCache ∧
          (asserts = false ∨ (cache.loadDnsCacheEntry (host sni port) 0).handle_ = none)))) := by
  by_cases hs : sni = ""
  · subst hs
    have h := onNewConnection_eq_of_empty_sni asserts cache port self
    rw [h]
    simp [continueReadingCalls]
  · cases ht : cache.canCreateDnsRequest with
    | none =>
      rw [onNewConnection_eq_of_no_token asserts cache sni port self hs ht]
      simp [continueReadingCalls, continueReadingCalls_append, continueReadingCalls_dropToken, hs]
    | some t =>
      have ho := onNewConnection_outcome_of_token asserts cache sni port self t hs ht
      have he := onNewConnection_events_of_token asserts cache sni port self t hs ht
      refine ⟨?_, ?_⟩
      · rw [he]
        split_ifs <;>
          simp [continueReadingCalls_append, continueReadingCalls,
            continueReadingCalls_dropToken, continueReadingCalls_dropHandle]
      · rw [ho]
        simp only [hs, false_or, ne_eq, not_false_eq_true, true_and, reduceCtorEq]
        cases asserts <;>
          cases (cache.loadDnsCacheEntry (host sni port) 0).handle_ <;>
          split_ifs <;> simp_all

/-! ## The claims -/

/-- C1, token accounting: for any number of filters on one cache and any valid schedule of
their lives (each filter gets `onNewConnection` once, with any server name, port, lease
availability and any load answer that carries a handle exactly for `Loading`; its callback is
fired at most once and only while its handle is registered and not cancelled; then it is
destroyed), once every filter is destroyed the number of leases acquired equals the number of
leases released, no lease was released twice, and no call aborted on the way. -/
theorem token_accounting_balances (asserts : Bool) (n : Nat) (schedule : List Action)
    (hv : valid asserts (World.init n) schedule = true)
    (hd : allDestroyed (run asserts (World.init n) schedule) = true) :
    (run asserts (World.init n) schedule).issued
      = (run asserts (World.init n) schedule).released.length ∧
    (run asserts (World.init n) schedule).released.Nodup ∧
    (run asserts (World.init n) schedule).aborted = false := by
  have hb := run_balanced asserts schedule (World.init n) (init_balanced n)
    (init_destroyedClean n)
  have hf := balanced_final _ hb.1 hb.2 hd
  have hi := run_inv asserts schedule (World.init n) (init_outstanding n) (init_fresh n) rfl hv
  exact ⟨hf.1, hf.2, hi.2.2⟩

theorem token_accounting_balances_witness :
    valid true (World.init 3) exampleSchedule = true ∧
    allDestroyed (run true (World.init 3) exampleSchedule) = true ∧
    (run true (World.init 3) exampleSchedule).issued = 2 ∧
    (run true (World.init 3) exampleSchedule).issued
      = (run true (World.init 3) exampleSchedule).released.length ∧
    (run true (World.init 3) exampleSchedule).released.Nodup ∧
    (run true (World.init 3) exampleSchedule).aborted = false :=
  ⟨by decide, by decide, by decide,
    token_accounting_balances true 3 exampleSchedule (by decide) (by decide)⟩

/-- C2, admission soundness: for every server name, port, filter state, lease availability and
load answer that carries a handle exactly for `Loading` (and for every load answer whatsoever
when `ASSERT` is compiled out), `onNewConnection` never calls `continueReading`, so that only
`onLoadDnsCacheComplete` does, and it returns `Continue` if and only if the server name is
empty or a lease was granted and the load was answered `InCache`. -/
theorem onNewConnection_admission (asserts : Bool) (cache : DnsCache) (sni : String)
    (port : Nat) (self : ProxyFilter)
    (hc : asserts = false ∨
      ((cache.loadDnsCacheEntry (host sni port) 0).handle_ ≠ none ↔
        (cache.loadDnsCacheEntry (host sni port) 0).status_ = .Loading)) :
    continueReadingCalls (onNewConnection asserts cache ⟨sni, port⟩ self).events = 0 ∧
    ((onNewConnection asserts cache ⟨sni, port⟩ self).outcome = .returned .Continue ↔
      (sni = "" ∨
        (cache.canCreateDnsRequest ≠ none ∧
          (cache.loadDnsCacheEntry (host sni port) 0).status_ = .InCache))) := by
  have h := onNewConnection_continue_iff asserts cache sni port self
  refine ⟨h.1, h.2.trans ?_⟩
  have d1 : LoadDnsCacheEntryStatus.InCache ≠ LoadDnsCacheEntryStatus.Loading := by decide
  constructor
  · rintro (hs | ⟨hg, hi, _⟩)
    · exact Or.inl hs
    · exact Or.inr ⟨hg, hi⟩
  · rintro (hs | ⟨hg, hi⟩)
    · exact Or.inl hs
    · refine Or.inr ⟨hg, hi, ?_⟩
      rcases hc with ha | hcon
      · exact Or.inl ha
      · right
        by_contra hne
        exact d1 (hi ▸ hcon.mp hne)

theorem onNewConnection_admission_witness :
    continueReadingCalls (onNewConnection true ⟨some 5, fun _ _ => ⟨.InCache, none⟩⟩
      ⟨"example.com", 443⟩ ProxyFilter.ProxyFilter).events = 0 ∧
    ((onNewConnection true ⟨some 5, fun _ _ => ⟨.InCache, none⟩⟩ ⟨"example.com", 443⟩
        ProxyFilter.ProxyFilter).outcome = .returned .Continue ↔
      ("example.com" = "" ∨
        ((some 5 : Option Token) ≠ none ∧
          (LoadDnsCacheEntryResult.mk .InCache none).status_ = .InCache))) :=
  onNewConnection_admission true ⟨some 5, fun _ _ => ⟨.InCache, none⟩⟩ "example.com" 443
    ProxyFilter.ProxyFilter (Or.inr (by decide))

/-- C3, empty-hint bypass: with an empty server name, whatever the filter state, the port and
the answers of the limiter and the cache, `onNewConnection` returns `Continue`, acquires no
lease, submits no load request, does not close the connection and leaves both members of the
filter as they were. -/
theorem onNewConnection_empty_sni (asserts : Bool) (cache : DnsCache) (port : Nat)
    (self : ProxyFilter) :
    (onNewConnection asserts cache ⟨"", port⟩ self).outcome = .returned .Continue ∧
    acquiredTokens (onNewConnection asserts cache ⟨"", port⟩ self).events = [] ∧
    (onNewConnection asserts cache ⟨"", port⟩ self).events = [] ∧
    loadCalls (onNewConnection asserts cache ⟨"", port⟩ self).events = [] ∧
    closes (onNewConnection asserts cache ⟨"", port⟩ self).events = [] ∧
    (onNewConnection asserts cache ⟨"", port⟩ self).filter.circuit_breaker_
      = self.circuit_breaker_ ∧
    (onNewConnection asserts cache ⟨"", port⟩ self).filter.cache_load_handle_
      = self.cache_load_handle_ := by
  rw [onNewConnection_eq_of_empty_sni asserts cache port self]
  simp [acquiredTokens, loadCalls, closes]

/-- C4, token exhaustion: with a server name and no lease available, `onNewConnection` on a
filter that stores no handle closes the connection exactly once, with `NoFlush`, returns
`StopIteration`, submits no load request, and ends holding neither a lease nor a handle. -/
theorem onNewConnection_token_exhausted (asserts : Bool) (cache : DnsCache) (sni : String)
    (port : Nat) (self : ProxyFilter) (hs : sni ≠ "")
    (ht : cache.canCreateDnsRequest = none) (hh : self.cache_load_handle_ = none) :
    closes (onNewConnection asserts cache ⟨sni, port⟩ self).events
      = [ConnectionCloseType.NoFlush] ∧
    (onNewConnection asserts cache ⟨sni, port⟩ self).outcome = .returned .StopIteration ∧
    loadCalls (onNewConnection asserts cache ⟨sni, port⟩ self).events = [] ∧
    acquiredTokens (onNewConnection asserts cache ⟨sni, port⟩ self).events = [] ∧
    (onNewConnection asserts cache ⟨sni, port⟩ self).filter.circuit_breaker_ = none ∧
    (onNewConnection asserts cache ⟨sni, port⟩ self).filter.cache_load_handle_ = none := by
  rw [onNewConnection_eq_of_no_token asserts cache sni port self hs ht]
  simp [closes, loadCalls, acquiredTokens, closes_append, loadCalls_append,
    acquiredTokens_append, closes_dropToken, loadCalls_dropToken, acquiredTokens_dropToken, hh]

theorem onNewConnection_token_exhausted_witness :
    closes (onNewConnection true ⟨none, fun _ _ => ⟨.InCache, none⟩⟩ ⟨"example.com", 443⟩
      ProxyFilter.ProxyFilter).events = [ConnectionCloseType.NoFlush] ∧
    (onNewConnection true ⟨none, fun _ _ => ⟨.InCache, none⟩⟩ ⟨"example.com", 443⟩
      ProxyFilter.ProxyFilter).outcome = .returned .StopIteration ∧
    loadCalls (onNewConnection true ⟨none, fun _ _ => ⟨.InCache, none⟩⟩ ⟨"example.com", 443⟩
      ProxyFilter.ProxyFilter).events = [] ∧
    acquiredTokens (onNewConnection true ⟨none, fun _ _ => ⟨.InCache, none⟩⟩
      ⟨"example.com", 443⟩ ProxyFilter.ProxyFilter).events = [] ∧
    (onNewConnection true ⟨none, fun _ _ => ⟨.InCache, none⟩⟩ ⟨"example.com", 443⟩
      ProxyFilter.ProxyFilter).filter.circuit_breaker_ = none ∧
    (onNewConnection true ⟨none, fun _ _ => ⟨.InCache, none⟩⟩ ⟨"example.com", 443⟩
      ProxyFilter.ProxyFilter).filter.cache_load_handle_ = none :=
  onNewConnection_token_exhausted true ⟨none, fun _ _ => ⟨.InCache, none⟩⟩ "example.com" 443
    ProxyFilter.ProxyFilter (by decide) rfl rfl

/-- C5, key construction: with a server name and a lease granted, `onNewConnection` submits
exactly one load request; its key is the server name, then a colon, then the decimal digits of
the local port (digits that read back as the port), and its second argument is 0. -/
theorem onNewConnection_load_request (asserts : Bool) (cache : DnsCache) (sni : String)
    (port : Nat) (self : ProxyFilter) (t : Token) (hs : sni ≠ "")
    (ht : cache.canCreateDnsRequest = some t) :
    loadCalls (onNewConnection asserts cache ⟨sni, port⟩ self).events
      = [(sni ++ ":" ++ Nat.repr port, 0)] ∧
    decimalValue (Nat.repr port).data = port := by
  rw [onNewConnection_events_of_token asserts cache sni port self t hs ht]
  refine ⟨?_, decimalValue_toDigitsCore (port + 1) port (Nat.lt_succ_self port)⟩
  split_ifs <;>
    simp [loadCalls_append, loadCalls, loadCalls_dropToken, loadCalls_dropHandle, host] <;> rfl

theorem onNewConnection_load_request_witness :
    loadCalls (onNewConnection true ⟨some 5, fun _ _ => ⟨.Loading, some 2⟩⟩
      ⟨"example.com", 443⟩ ProxyFilter.ProxyFilter).events = [("example.com:443", 0)] :=
  (onNewConnection_load_request true ⟨some 5, fun _ _ => ⟨.Loading, some 2⟩⟩ "example.com" 443
    ProxyFilter.ProxyFilter 5 (by decide) rfl).1

/-- C6, key uniqueness: the key `host sni port` determines both the server name and the port,
also when the server name itself contains colons or digits; so one server name on two different
ports never gives the same key. -/
theorem host_injective (sni₁ sni₂ : String) (port₁ port₂ : Nat)
    (h : host sni₁ port₁ = host sni₂ port₂) : sni₁ = sni₂ ∧ port₁ = port₂ := by
  have hd : (host sni₁ port₁).data = (host sni₂ port₂).data := by rw [h]
  rw [host_data, host_data] at hd
  obtain ⟨hl, hr⟩ := append_sep_inj ':' _ _ _ _
    (colon_not_mem_toDigitsCore _ _) (colon_not_mem_toDigitsCore _ _) hd
  exact ⟨String.ext hl, toDigits_injective _ _ hr⟩

theorem host_injective_witness :
    host "example.com:8" 443 = "example.com:8:443" ∧
    ("example.com:8" = "example.com:8" ∧ 443 = 443) :=
  ⟨by decide, host_injective "example.com:8" "example.com:8" 443 443 rfl⟩

/-- C7, loading path: with a server name, a lease granted and a load answered `Loading` together
with a handle, `onNewConnection` returns `StopIteration`, does not close the connection, and
ends holding the granted lease and storing the returned handle. -/
theorem onNewConnection_loading (asserts : Bool) (cache : DnsCache) (sni : String)
    (port : Nat) (self : ProxyFilter) (t : Token) (h : Handle) (hs : sni ≠ "")
    (ht : cache.canCreateDnsRequest = some t)
    (hr : cache.loadDnsCacheEntry (host sni port) 0 = ⟨.Loading, some h⟩) :
    (onNewConnection asserts cache ⟨sni, port⟩ self).outcome = .returned .StopIteration ∧
    closes (onNewConnection asserts cache ⟨sni, port⟩ self).events = [] ∧
    (onNewConnection asserts cache ⟨sni, port⟩ self).filter.circuit_breaker_ = some t ∧
    (onNewConnection asserts cache ⟨sni, port⟩ self).filter.cache_load_handle_ = some h ∧
    releasedTokens (onNewConnection asserts cache ⟨sni, port⟩ self).events
      = self.circuit_breaker_.toList := by
  have ho := onNewConnection_outcome_of_token asserts cache sni port self t hs ht
  have hf := onNewConnection_filter_of_token asserts cache sni port self t hs ht
  have he := onNewConnection_events_of_token asserts cache sni port self t hs ht
  rw [hr] at ho hf he
  simp [LoadDnsCacheEntryStatus.InCache, LoadDnsCacheEntryStatus.Loading,
    LoadDnsCacheEntryStatus.Overflow] at ho hf he
  rw [ho, hf, he]
  simp [closes, closes_append, closes_dropToken, closes_dropHandle, releasedTokens,
    releasedTokens_append, releasedTokens_dropToken, releasedTokens_dropHandle]

theorem onNewConnection_loading_witness :
    (onNewConnection true ⟨some 5, fun _ _ => ⟨.Loading, some 2⟩⟩ ⟨"example.com", 443⟩
      ProxyFilter.ProxyFilter).outcome = .returned .StopIteration ∧
    closes (onNewConnection true ⟨some 5, fun _ _ => ⟨.Loading, some 2⟩⟩ ⟨"example.com", 443⟩
      ProxyFilter.ProxyFilter).events = [] ∧
    (onNewConnection true ⟨some 5, fun _ _ => ⟨.Loading, some 2⟩⟩ ⟨"example.com", 443⟩
      ProxyFilter.ProxyFilter).filter.circuit_breaker_ = some 5 ∧
    (onNewConnection true ⟨some 5, fun _ _ => ⟨.Loading, some 2⟩⟩ ⟨"example.com", 443⟩
      ProxyFilter.ProxyFilter).filter.cache_load_handle_ = some 2 ∧
    releasedTokens (onNewConnection true ⟨some 5, fun _ _ => ⟨.Loading, some 2⟩⟩
      ⟨"example.com", 443⟩ ProxyFilter.ProxyFilter).events = [] :=
  onNewConnection_loading true ⟨some 5, fun _ _ => ⟨.Loading, some 2⟩⟩ "example.com" 443
    ProxyFilter.ProxyFilter 5 2 (by decide) rfl rfl

/-- C8, completion: on a filter that holds a lease, whatever host information is passed,
`onLoadDnsCacheComplete` completes normally, releases exactly that lease (none is held
afterwards), calls `continueReading` exactly once and does not close the connection. -/
theorem onLoadDnsCacheComplete_releases (asserts : Bool) (info : DnsHostInfoSharedPtr)
    (self : ProxyFilter) (t : Token) (ht : self.circuit_breaker_ = some t) :
    (onLoadDnsCacheComplete asserts info self).outcome = .returned () ∧
    releasedTokens (onLoadDnsCacheComplete asserts info self).events = [t] ∧
    (onLoadDnsCacheComplete asserts info self).filter.circuit_breaker_ = none ∧
    continueReadingCalls (onLoadDnsCacheComplete asserts info self).events = 1 ∧
    closes (onLoadDnsCacheComplete asserts info self).events = [] := by
  simp [onLoadDnsCacheComplete, ht, dropToken, releasedTokens, continueReadingCalls, closes]

theorem onLoadDnsCacheComplete_releases_witness :
    (onLoadDnsCacheComplete true none ⟨some 5, some 2⟩).outcome = .returned () ∧
    releasedTokens (onLoadDnsCacheComplete true none ⟨some 5, some 2⟩).events = [5] ∧
    (onLoadDnsCacheComplete true none ⟨some 5, some 2⟩).filter.circuit_breaker_ = none ∧
    continueReadingCalls (onLoadDnsCacheComplete true none ⟨some 5, some 2⟩).events = 1 ∧
    closes (onLoadDnsCacheComplete true none ⟨some 5, some 2⟩).events = [] :=
  onLoadDnsCacheComplete_releases true none ⟨some 5, some 2⟩ 5 rfl

/-- C9, overflow path: with a server name, a lease granted and a load answered `Overflow`
without a handle, `onNewConnection` releases the granted lease once (after the lease the filter
held before the call, if any), holds no lease afterwards, closes the connection exactly once,
with `NoFlush`, returns `StopIteration` and stores no handle. -/
theorem onNewConnection_overflow (asserts : Bool) (cache : DnsCache) (sni : String)
    (port : Nat) (self : ProxyFilter) (t : Token) (hs : sni ≠ "")
    (ht : cache.canCreateDnsRequest = some t)
    (hr : cache.loadDnsCacheEntry (host sni port) 0 = ⟨.Overflow, none⟩) :
    releasedTokens (onNewConnection asserts cache ⟨sni, port⟩ self).events
      = self.circuit_breaker_.toList ++ [t] ∧
    (onNewConnection asserts cache ⟨sni, port⟩ self).filter.circuit_breaker_ = none ∧
    closes (onNewConnection asserts cache ⟨sni, port⟩ self).events
      = [ConnectionCloseType.NoFlush] ∧
    (onNewConnection asserts cache ⟨sni, port⟩ self).outcome = .returned .StopIteration ∧
    (onNewConnection asserts cache ⟨sni, port⟩ self).filter.cache_load_handle_ = none := by
  have ho := onNewConnection_outcome_of_token asserts cache sni port self t hs ht
  have hf := onNewConnection_filter_of_token asserts cache sni port self t hs ht
  have he := onNewConnection_events_of_token asserts cache sni port self t hs ht
  rw [hr] at ho hf he
  simp [LoadDnsCacheEntryStatus.InCache, LoadDnsCacheEntryStatus.Loading,
    LoadDnsCacheEntryStatus.Overflow] at ho hf he
  rw [ho, hf, he]
  simp [closes, closes_append, closes_dropToken, closes_dropHandle, releasedTokens,
    releasedTokens_append, releasedTokens_dropToken, releasedTokens_dropHandle]

theorem onNewConnection_overflow_witness :
    releasedTokens (onNewConnection true ⟨some 5, fun _ _ => ⟨.Overflow, none⟩⟩
      ⟨"example.com", 443⟩ ProxyFilter.ProxyFilter).events = [5] ∧
    (onNewConnection true ⟨some 5, fun _ _ => ⟨.Overflow, none⟩⟩ ⟨"example.com", 443⟩
      ProxyFilter.ProxyFilter).filter.circuit_breaker_ = none ∧
    closes (onNewConnection true ⟨some 5, fun _ _ => ⟨.Overflow, none⟩⟩ ⟨"example.com", 443⟩
      ProxyFilter.ProxyFilter).events = [ConnectionCloseType.NoFlush] ∧
    (onNewConnection true ⟨some 5, fun _ _ => ⟨.Overflow, none⟩⟩ ⟨"example.com", 443⟩
      ProxyFilter.ProxyFilter).outcome = .returned .StopIteration ∧
    (onNewConnection true ⟨some 5, fun _ _ => ⟨.Overflow, none⟩⟩ ⟨"example.com", 443⟩
      ProxyFilter.ProxyFilter).filter.cache_load_handle_ = none :=
  onNewConnection_overflow true ⟨some 5, fun _ _ => ⟨.Overflow, none⟩⟩ "example.com" 443
    ProxyFilter.ProxyFilter 5 (by decide) rfl rfl

/-- C10, in-cache path: with a server name, a lease granted and a load answered `InCache`
without a handle, `onNewConnection` acquires the lease and releases it within the same call
(after the lease the filter held before the call, if any), holds no lease and no handle when it
returns, does not close the connection, and returns `Continue`. -/
theorem onNewConnection_in_cache (asserts : Bool) (cache : DnsCache) (sni : String)
    (port : Nat) (self : ProxyFilter) (t : Token) (hs : sni ≠ "")
    (ht : cache.canCreateDnsRequest = some t)
    (hr : cache.loadDnsCacheEntry (host sni port) 0 = ⟨.InCache, none⟩) :
    acquiredTokens (onNewConnection asserts cache ⟨sni, port⟩ self).events = [t] ∧
    releasedTokens (onNewConnection asserts cache ⟨sni, port⟩ self).events
      = self.circuit_breaker_.toList ++ [t] ∧
    (onNewConnection asserts cache ⟨sni, port⟩ self).filter.circuit_breaker_ = none ∧
    (onNewConnection asserts cache ⟨sni, port⟩ self).filter.cache_load_handle_ = none ∧
    closes (onNewConnection asserts cache ⟨sni, port⟩ self).events = [] ∧
    (onNewConnection asserts cache ⟨sni, port⟩ self).outcome = .returned .Continue := by
  have ho := onNewConnection_outcome_of_token asserts cache sni port self t hs ht
  have hf := onNewConnection_filter_of_token asserts cache sni port self t hs ht
  have he := onNewConnection_events_of_token asserts cache sni port self t hs ht
  rw [hr] at ho hf he
  simp [LoadDnsCacheEntryStatus.InCache, LoadDnsCacheEntryStatus.Loading,
    LoadDnsCacheEntryStatus.Overflow] at ho hf he
  rw [ho, hf, he]
  simp [closes, closes_append, closes_dropToken, closes_dropHandle, releasedTokens,
    releasedTokens_append, releasedTokens_dropToken, releasedTokens_dropHandle,
    acquiredTokens, acquiredTokens_append, acquiredTokens_dropToken, acquiredTokens_dropHandle]

theorem onNewConnection_in_cache_witness :
    acquiredTokens (onNewConnection true ⟨some 5, fun _ _ => ⟨.InCache, none⟩⟩
      ⟨"example.com", 443⟩ ProxyFilter.ProxyFilter).events = [5] ∧
    releasedTokens (onNewConnection true ⟨some 5, fun _ _ => ⟨.InCache, none⟩⟩
      ⟨"example.com", 443⟩ ProxyFilter.ProxyFilter).events = [5] ∧
    (onNewConnection true ⟨some 5, fun _ _ => ⟨.InCache, none⟩⟩ ⟨"example.com", 443⟩
      ProxyFilter.ProxyFilter).filter.circuit_breaker_ = none ∧
    (onNewConnection true ⟨some 5, fun _ _ => ⟨.InCache, none⟩⟩ ⟨"example.com", 443⟩
      ProxyFilter.ProxyFilter).filter.cache_load_handle_ = none ∧
    closes (onNewConnection true ⟨some 5, fun _ _ => ⟨.InCache, none⟩⟩ ⟨"example.com", 443⟩
      ProxyFilter.ProxyFilter).events = [] ∧
    (onNewConnection true ⟨some 5, fun _ _ => ⟨.InCache, none⟩⟩ ⟨"example.com", 443⟩
      ProxyFilter.ProxyFilter).outcome = .returned .Continue :=
  onNewConnection_in_cache true ⟨some 5, fun _ _ => ⟨.InCache, none⟩⟩ "example.com" 443
    ProxyFilter.ProxyFilter 5 (by decide) rfl rfl

/-- C11, callback without a lease: with `ASSERT` compiled in, on every filter that holds no
lease `onLoadDnsCacheComplete` fails its assertion: the call ends in the fatal assertion failure,
having done nothing, instead of returning. Consequently, after a `Loading` admission and one
callback, which returns, a second callback fails the assertion. -/
theorem onLoadDnsCacheComplete_without_token (info : DnsHostInfoSharedPtr) (self : ProxyFilter)
    (hnone : self.circuit_breaker_ = none)
    (cache : DnsCache) (sni : String) (port : Nat) (self₀ : ProxyFilter) (t : Token)
    (h : Handle) (info₁ info₂ : DnsHostInfoSharedPtr) (hs : sni ≠ "")
    (ht : cache.canCreateDnsRequest = some t)
    (hr : cache.loadDnsCacheEntry (host sni port) 0 = ⟨.Loading, some h⟩) :
    ((onLoadDnsCacheComplete true info self).outcome = .assertFailure ∧
      (onLoadDnsCacheComplete true info self).events = [] ∧
      (onLoadDnsCacheComplete true info self).filter = self) ∧
    ((onNewConnection true cache ⟨sni, port⟩ self₀).outcome = .returned .StopIteration ∧
      (onLoadDnsCacheComplete true info₁
        (onNewConnection true cache ⟨sni, port⟩ self₀).filter).outcome = .returned () ∧
      (onLoadDnsCacheComplete true info₂
        (onLoadDnsCacheComplete true info₁
          (onNewConnection true cache ⟨sni, port⟩ self₀).filter).filter).outcome
        = .assertFailure) := by
  have ho := onNewConnection_outcome_of_token true cache sni port self₀ t hs ht
  have hf := onNewConnection_filter_of_token true cache sni port self₀ t hs ht
  rw [hr] at ho hf
  simp [LoadDnsCacheEntryStatus.InCache, LoadDnsCacheEntryStatus.Loading] at ho hf
  rw [ho, hf]
  simp [onLoadDnsCacheComplete, hnone]

theorem onLoadDnsCacheComplete_without_token_witness :
    (onLoadDnsCacheComplete true none ⟨none, some 2⟩).outcome = .assertFailure ∧
    (onLoadDnsCacheComplete true (some ⟨"10.0.0.1"⟩)
      (onLoadDnsCacheComplete true none
        (onNewConnection true ⟨some 5, fun _ _ => ⟨.Loading, some 2⟩⟩ ⟨"example.com", 443⟩
          ProxyFilter.ProxyFilter).filter).filter).outcome = .assertFailure :=
  ⟨(onLoadDnsCacheComplete_without_token none ⟨none, some 2⟩ rfl
      ⟨some 5, fun _ _ => ⟨.Loading, some 2⟩⟩ "example.com" 443 ProxyFilter.ProxyFilter 5 2
      none (some ⟨"10.0.0.1"⟩) (by decide) rfl rfl).1.1,
    (onLoadDnsCacheComplete_without_token none ⟨none, some 2⟩ rfl
      ⟨some 5, fun _ _ => ⟨.Loading, some 2⟩⟩ "example.com" 443 ProxyFilter.ProxyFilter 5 2
      none (some ⟨"10.0.0.1"⟩) (by decide) rfl rfl).2.2.2⟩

/-- C12, teardown before completion: take any state `w` reached by a valid schedule in which a
handle `h` registered by filter `i` is still outstanding (the load was answered `Loading` with
that handle, and the callback has neither fired nor been cancelled). Then filter `i` is
connected, stores `h` and holds a lease; destroying it cancels exactly `h`, releases exactly
that lease and leaves the filter destroyed; and in every continuation whatsoever no callback
is delivered to filter `i` and the callback of `h` never fires. -/
theorem teardown_before_completion (asserts : Bool) (n : Nat) (s₁ s₂ : List Action)
    (w : World) (i : Nat) (h : Handle)
    (hw : w = run asserts (World.init n) s₁)
    (hv : valid asserts (World.init n) s₁ = true)
    (hreg : w.registered.lookup h = some i)
    (hnc : h ∉ w.cancelled) (hnd : h ∉ w.completed) :
    ∃ t : Token,
      w.gates[i]? = some ⟨.connected, ⟨some t, some h⟩⟩ ∧
      (step asserts w (.destroy i)).cancelled = w.cancelled ++ [h] ∧
      (step asserts w (.destroy i)).released = w.released ++ [t] ∧
      (step asserts w (.destroy i)).gates[i]? = some ⟨.destroyed, ⟨none, none⟩⟩ ∧
      (step asserts w (.destroy i)).aborted = false ∧
      i ∉ deliveries asserts (step asserts w (.destroy i)) s₂ ∧
      h ∉ (run asserts (step asserts w (.destroy i)) s₂).completed := by
  have hinv := run_inv asserts s₁ (World.init n) (init_outstanding n) (init_fresh n) rfl hv
  rw [← hw] at hinv
  obtain ⟨ho, _, hab⟩ := hinv
  obtain ⟨g, hg, hstage, hhandle, htoken⟩ := ho h i hreg hnc hnd
  obtain ⟨st, ⟨cb, hd⟩⟩ := g
  simp only at hstage hhandle htoken
  subst hstage hhandle
  cases cb with
  | none => exact absurd rfl htoken
  | some t =>
    have hlt : i < w.gates.length := (List.getElem?_eq_some.mp hg).1
    have hcan : (step asserts w (.destroy i)).cancelled = w.cancelled ++ [h] := by
      simp [step, hab, hg, World.record, destroyFilter, cancelledHandles_append,
        cancelledHandles_dropHandle, cancelledHandles_dropToken]
    have hrel : (step asserts w (.destroy i)).released = w.released ++ [t] := by
      simp [step, hab, hg, World.record, destroyFilter, releasedTokens_append,
        releasedTokens_dropHandle, releasedTokens_dropToken]
    have hgate : (step asserts w (.destroy i)).gates[i]?
        = some ⟨.destroyed, ⟨none, none⟩⟩ := by
      simp only [step, hab, hg, World.record, destroyFilter, Bool.false_eq_true, if_false,
        reduceCtorEq]
      exact List.getElem?_set_self hlt
    have hcomp : (step asserts w (.destroy i)).completed = w.completed := by
      simp [step, hab, hg, World.record]
    have hregs : (step asserts w (.destroy i)).registered = w.registered := by
      simp [step, hab, hg, World.record]
    have hret : Retired (step asserts w (.destroy i)) i := by
      refine ⟨⟨_, hgate, rfl⟩, ?_⟩
      intro h' hl'
      rw [hregs] at hl'
      rw [hcan, hcomp]
      by_cases hc' : h' ∈ w.cancelled
      · exact Or.inl (List.mem_append_left _ hc')
      · by_cases hd' : h' ∈ w.completed
        · exact Or.inr hd'
        · obtain ⟨g', hg', _, hh', _⟩ := ho h' i hl' hc' hd'
          rw [hg] at hg'
          cases hg'
          simp only [Option.some.injEq] at hh'
          left
          rw [hh']
          simp
    refine ⟨t, hg, hcan, hrel, hgate, ?_, deliveries_retired asserts i s₂ _ hret, ?_⟩
    · simp [step, hab, hg, World.record, destroyFilter, Outcome.isAbort]
    · apply run_cancelled
      · rw [hcan]; simp
      · rw [hcomp]; exact hnd

theorem teardown_before_completion_witness :
    (run true (World.init 1) pendingSchedule).gates[0]?
      = some ⟨.connected, ⟨some 0, some 0⟩⟩ ∧
    (step true (run true (World.init 1) pendingSchedule) (.destroy 0)).cancelled = [0] ∧
    (step true (run true (World.init 1) pendingSchedule) (.destroy 0)).released = [0] ∧
    (0 : Nat) ∉ deliveries true
      (step true (run true (World.init 1) pendingSchedule) (.destroy 0))
      [.loadComplete 0 none] ∧
    (0 : Handle) ∉ (run true
      (step true (run true (World.init 1) pendingSchedule) (.destroy 0))
      [.loadComplete 0 none]).completed :=
  (teardown_before_completion true 1 pendingSchedule [.loadComplete 0 none]
    (run true (World.init 1) pendingSchedule) 0 0 rfl (by decide) (by decide) (by decide)
    (by decide)).elim
    (fun _ ht => ⟨by decide, by decide, by decide, ht.2.2.2.2.2.1, ht.2.2.2.2.2.2⟩)

/-- C13, assertion validity of `onNewConnection`: for every server name, port, filter state and
lease availability, when the load answer has one of the three statuses and carries a handle
exactly for `Loading`, the call returns, so no branch assertion fails and the not-reached point
is not reached, whether `ASSERT` is compiled in or not. Conversely, when a call that was granted
a lease completes a status branch with `ASSERT` compiled in, the filter stores a handle exactly
when the status was `Loading`. -/
theorem onNewConnection_assertions (cache : DnsCache) (sni : String) (port : Nat)
    (self : ProxyFilter) :
    (((cache.loadDnsCacheEntry (host sni port) 0).status_ = .InCache ∨
        (cache.loadDnsCacheEntry (host sni port) 0).status_ = .Loading ∨
        (cache.loadDnsCacheEntry (host sni port) 0).status_ = .Overflow) →
      ((cache.loadDnsCacheEntry (host sni port) 0).handle_ ≠ none ↔
        (cache.loadDnsCacheEntry (host sni port) 0).status_ = .Loading) →
      ∀ asserts : Bool,
        (onNewConnection asserts cache ⟨sni, port⟩ self).outcome ≠ .assertFailure ∧
        (onNewConnection asserts cache ⟨sni, port⟩ self).outcome ≠ .notReached) ∧
    (sni ≠ "" → cache.canCreateDnsRequest ≠ none →
      (∃ v, (onNewConnection true cache ⟨sni, port⟩ self).outcome = .returned v) →
      ((onNewConnection true cache ⟨sni, port⟩ self).filter.cache_load_handle_ ≠ none ↔
        (cache.loadDnsCacheEntry (host sni port) 0).status_ = .Loading)) := by
  have d1 : LoadDnsCacheEntryStatus.InCache ≠ LoadDnsCacheEntryStatus.Loading := by decide
  have d2 : LoadDnsCacheEntryStatus.Overflow ≠ LoadDnsCacheEntryStatus.Loading := by decide
  have d3 : LoadDnsCacheEntryStatus.Overflow ≠ LoadDnsCacheEntryStatus.InCache := by decide
  refine ⟨?_, ?_⟩
  · intro hst hh asserts
    by_cases hs : sni = ""
    · subst hs
      rw [onNewConnection_eq_of_empty_sni]
      simp
    · cases ht : cache.canCreateDnsRequest with
      | none =>
        rw [onNewConnection_eq_of_no_token asserts cache sni port self hs ht]
        simp
      | some t =>
        rw [onNewConnection_outcome_of_token asserts cache sni port self t hs ht]
        rcases hst with h1 | h1 | h1
        · have h3 : (cache.loadDnsCacheEntry (host sni port) 0).handle_ = none := by
            by_contra hne
            exact d1 (h1 ▸ hh.mp hne)
          simp [h1, h3]
        · have h3 : (cache.loadDnsCacheEntry (host sni port) 0).handle_ ≠ none := hh.mpr h1
          simp [h1, h3, d1.symm]
        · have h3 : (cache.loadDnsCacheEntry (host sni port) 0).handle_ = none := by
            by_contra hne
            exact d2 (h1 ▸ hh.mp hne)
          simp [h1, h3, d2, d3]
  · intro hs hg hret
    cases ht : cache.canCreateDnsRequest with
    | none => exact absurd ht hg
    | some t =>
      obtain ⟨v, hv⟩ := hret
      have ho := onNewConnection_outcome_of_token true cache sni port self t hs ht
      have hf := onNewConnection_filter_of_token true cache sni port self t hs ht
      rw [hv] at ho
      rw [hf]
      cases hh : (cache.loadDnsCacheEntry (host sni port) 0).handle_ with
      | none =>
        rw [hh] at ho
        simp only [ne_eq, not_true_eq_false, and_false, and_true, if_false, if_true] at ho
        simp only [if_true, ne_eq, not_true_eq_false, false_iff]
        intro hl
        rw [hl] at ho
        simp [d1.symm] at ho
      | some h =>
        rw [hh] at ho
        simp only [ne_eq, reduceCtorEq, not_false_eq_true, and_true, and_false, if_true,
          if_false] at ho
        simp only [reduceCtorEq, if_false, ne_eq, not_false_eq_true, true_iff]
        by_contra hl
        by_cases hi : (cache.loadDnsCacheEntry (host sni port) 0).status_ = .InCache
        · simp [hi] at ho
        · by_cases hov : (cache.loadDnsCacheEntry (host sni port) 0).status_ = .Overflow
          · simp [hov, d2, d3] at ho
          · simp [hi, hl, hov] at ho

theorem onNewConnection_assertions_witness :
    ((onNewConnection true ⟨some 5, fun _ _ => ⟨.Loading, some 2⟩⟩ ⟨"example.com", 443⟩
        ProxyFilter.ProxyFilter).outcome ≠ .assertFailure ∧
      (onNewConnection true ⟨some 5, fun _ _ => ⟨.Loading, some 2⟩⟩ ⟨"example.com", 443⟩
        ProxyFilter.ProxyFilter).outcome ≠ .notReached) ∧
    ((onNewConnection true ⟨some 5, fun _ _ => ⟨.Loading, some 2⟩⟩ ⟨"example.com", 443⟩
        ProxyFilter.ProxyFilter).filter.cache_load_handle_ ≠ none ↔
      (LoadDnsCacheEntryResult.mk .Loading (some 2)).status_ = .Loading) :=
  ⟨(onNewConnection_assertions ⟨some 5, fun _ _ => ⟨.Loading, some 2⟩⟩ "example.com" 443
      ProxyFilter.ProxyFilter).1 (Or.inr (Or.inl rfl)) (by decide) true,
    (onNewConnection_assertions ⟨some 5, fun _ _ => ⟨.Loading, some 2⟩⟩ "example.com" 443
      ProxyFilter.ProxyFilter).2 (by decide) (by decide) ⟨.StopIteration, by decide⟩⟩

/-- C14, release keyed on the handle: with a server name and a lease granted, whatever the load
answer is (also one that breaks the handle-exactly-for-`Loading` contract or has an unknown
status) and whether `ASSERT` is compiled in or treated as doing nothing, after `onNewConnection`
the filter holds a lease exactly when it stores a handle. -/
theorem onNewConnection_token_iff_handle (asserts : Bool) (cache : DnsCache) (sni : String)
    (port : Nat) (self : ProxyFilter) (t : Token) (hs : sni ≠ "")
    (ht : cache.canCreateDnsRequest = some t) :
    ((onNewConnection asserts cache ⟨sni, port⟩ self).filter.circuit_breaker_ ≠ none ↔
      (onNewConnection asserts cache ⟨sni, port⟩ self).filter.cache_load_handle_ ≠ none) ∧
    (onNewConnection asserts cache ⟨sni, port⟩ self).filter.cache_load_handle_
      = (cache.loadDnsCacheEntry (host sni port) 0).handle_ := by
  rw [onNewConnection_filter_of_token asserts cache sni port self t hs ht]
  cases hh : (cache.loadDnsCacheEntry (host sni port) 0).handle_ <;> simp

theorem onNewConnection_token_iff_handle_witness :
    ((onNewConnection false ⟨some 5, fun _ _ => ⟨.InCache, some 2⟩⟩ ⟨"example.com", 443⟩
        ProxyFilter.ProxyFilter).filter.circuit_breaker_ ≠ none ↔
      (onNewConnection false ⟨some 5, fun _ _ => ⟨.InCache, some 2⟩⟩ ⟨"example.com", 443⟩
        ProxyFilter.ProxyFilter).filter.cache_load_handle_ ≠ none) ∧
    (onNewConnection false ⟨some 5, fun _ _ => ⟨.InCache, some 2⟩⟩ ⟨"example.com", 443⟩
        ProxyFilter.ProxyFilter).filter.cache_load_handle_ = some 2 :=
  onNewConnection_token_iff_handle false ⟨some 5, fun _ _ => ⟨.InCache, some 2⟩⟩
    "example.com" 443 ProxyFilter.ProxyFilter 5 (by decide) rfl

/-- C15, no stalled connection: whenever `onNewConnection` returns `StopIteration` and no
assertion of the call fails (the same call with `ASSERT` compiled in does not end in an
assertion failure), either the connection was closed during the call, once and with `NoFlush`,
and the filter holds no lease, or the connection was not closed and the filter ends holding
both a lease and a handle. -/
theorem onNewConnection_stop_closed_or_paused (asserts : Bool) (cache : DnsCache)
    (sni : String) (port : Nat) (self : ProxyFilter)
    (hstop : (onNewConnection asserts cache ⟨sni, port⟩ self).outcome
      = .returned .StopIteration)
    (hok : (onNewConnection true cache ⟨sni, port⟩ self).outcome ≠ .assertFailure) :
    (closes (onNewConnection asserts cache ⟨sni, port⟩ self).events
        = [ConnectionCloseType.NoFlush] ∧
      (onNewConnection asserts cache ⟨sni, port⟩ self).filter.circuit_breaker_ = none) ∨
    (closes (onNewConnection asserts cache ⟨sni, port⟩ self).events = [] ∧
      (onNewConnection asserts cache ⟨sni, port⟩ self).filter.circuit_breaker_ ≠ none ∧
      (onNewConnection asserts cache ⟨sni, port⟩ self).filter.cache_load_handle_ ≠ none) := by
  have d1 : LoadDnsCacheEntryStatus.InCache ≠ LoadDnsCacheEntryStatus.Loading := by decide
  have d2 : LoadDnsCacheEntryStatus.Overflow ≠ LoadDnsCacheEntryStatus.Loading := by decide
  have d3 : LoadDnsCacheEntryStatus.Overflow ≠ LoadDnsCacheEntryStatus.InCache := by decide
  by_cases hs : sni = ""
  · subst hs
    rw [onNewConnection_eq_of_empty_sni] at hstop
    simp at hstop
  · cases ht : cache.canCreateDnsRequest with
    | none =>
      left
      rw [onNewConnection_eq_of_no_token asserts cache sni port self hs ht]
      simp [closes, closes_append, closes_dropToken]
    | some t =>
      have ho := onNewConnection_outcome_of_token asserts cache sni port self t hs ht
      have hot := onNewConnection_outcome_of_token true cache sni port self t hs ht
      have hf := onNewConnection_filter_of_token asserts cache sni port self t hs ht
      have he := onNewConnection_events_of_token asserts cache sni port self t hs ht
      rw [hstop] at ho
      rw [hot] at hok
      rw [hf, he]
      by_cases hi : (cache.loadDnsCacheEntry (host sni port) 0).status_ = .InCache
      · rw [if_pos hi] at ho
        exfalso
        split_ifs at ho
        cases ho
      · by_cases hl : (cache.loadDnsCacheEntry (host sni port) 0).status_ = .Loading
        · have hh : (cache.loadDnsCacheEntry (host sni port) 0).handle_ ≠ none := by
            intro hh
            simp [hl, hh, d1.symm] at hok
          right
          simp [hh, hl, d2.symm, closes, closes_append, closes_dropToken, closes_dropHandle]
        · by_cases hov : (cache.loadDnsCacheEntry (host sni port) 0).status_ = .Overflow
          · have hh : (cache.loadDnsCacheEntry (host sni port) 0).handle_ = none := by
              by_contra hh
              simp [hov, hh, d2, d3] at hok
            left
            simp [hh, hov, closes, closes_append, closes_dropToken, closes_dropHandle]
          · simp [hi, hl, hov] at ho

theorem onNewConnection_stop_closed_or_paused_witness :
    (closes (onNewConnection true ⟨some 5, fun _ _ => ⟨.Loading, some 2⟩⟩
          ⟨"example.com", 443⟩ ProxyFilter.ProxyFilter).events
        = [ConnectionCloseType.NoFlush] ∧
      (onNewConnection true ⟨some 5, fun _ _ => ⟨.Loading, some 2⟩⟩ ⟨"example.com", 443⟩
        ProxyFilter.ProxyFilter).filter.circuit_breaker_ = none) ∨
    (closes (onNewConnection true ⟨some 5, fun _ _ => ⟨.Loading, some 2⟩⟩
          ⟨"example.com", 443⟩ ProxyFilter.ProxyFilter).events = [] ∧
      (onNewConnection true ⟨some 5, fun _ _ => ⟨.Loading, some 2⟩⟩ ⟨"example.com", 443⟩
        ProxyFilter.ProxyFilter).filter.circuit_breaker_ ≠ none ∧
      (onNewConnection true ⟨some 5, fun _ _ => ⟨.Loading, some 2⟩⟩ ⟨"example.com", 443⟩
        ProxyFilter.ProxyFilter).filter.cache_load_handle_ ≠ none) :=
  onNewConnection_stop_closed_or_paused true ⟨some 5, fun _ _ => ⟨.Loading, some 2⟩⟩
    "example.com" 443 ProxyFilter.ProxyFilter (by decide) (by decide)

/-- C16, the callback ignores the resolution result: for every filter state and every two
host informations (null included), `onLoadDnsCacheComplete` gives the same filter state, the
same actions and the same outcome. The stored handle is left as it was and the connection is
never closed; unless the call aborts on its assertion, it releases the lease the filter held,
holds none afterwards and calls `continueReading` exactly once. -/
theorem onLoadDnsCacheComplete_ignores_info (asserts : Bool) (self : ProxyFilter)
    (info₁ info₂ : DnsHostInfoSharedPtr) :
    (onLoadDnsCacheComplete asserts info₁ self).filter
      = (onLoadDnsCacheComplete asserts info₂ self).filter ∧
    (onLoadDnsCacheComplete asserts info₁ self).events
      = (onLoadDnsCacheComplete asserts info₂ self).events ∧
    (onLoadDnsCacheComplete asserts info₁ self).outcome
      = (onLoadDnsCacheComplete asserts info₂ self).outcome ∧
    (onLoadDnsCacheComplete asserts info₁ self).filter.cache_load_handle_
      = self.cache_load_handle_ ∧
    closes (onLoadDnsCacheComplete asserts info₁ self).events = [] ∧
    continueReadingCalls (onLoadDnsCacheComplete asserts info₁ self).events
      = (if (onLoadDnsCacheComplete asserts info₁ self).outcome.isAbort then 0 else 1) ∧
    releasedTokens (onLoadDnsCacheComplete asserts info₁ self).events
      = (if (onLoadDnsCacheComplete asserts info₁ self).outcome.isAbort then []
          else self.circuit_breaker_.toList) ∧
    (onLoadDnsCacheComplete asserts info₁ self).filter.circuit_breaker_
      = (if (onLoadDnsCacheComplete asserts info₁ self).outcome.isAbort
          then self.circuit_breaker_ else none) := by
  refine ⟨rfl, rfl, rfl, ?_⟩
  by_cases h : (asserts && self.circuit_breaker_.isNone) = true
  · have heq : onLoadDnsCacheComplete asserts info₁ self
        = { filter := self, events := [], outcome := .assertFailure } := by
      simp only [onLoadDnsCacheComplete, h, if_true]
    rw [heq]
    simp [closes, continueReadingCalls, releasedTokens, Outcome.isAbort]
  · have heq : onLoadDnsCacheComplete asserts info₁ self
        = { filter := { self with circuit_breaker_ := none }
            events := dropToken self.circuit_breaker_ ++ [Event.continueReading]
            outcome := .returned () } := by
      simp [onLoadDnsCacheComplete, h]
    rw [heq]
    simp [closes, continueReadingCalls, releasedTokens, Outcome.isAbort, closes_append,
      continueReadingCalls_append, releasedTokens_append, closes_dropToken,
      continueReadingCalls_dropToken, releasedTokens_dropToken]

end Envoy.SniDynamicForwardProxy
